import Mathlib

/-!
# dbstruct: schema-to-code generation

A shallow embedding of `dbstruct.go` (package `dbstruct`) and the properties of its
name formatter, type mapper, struct renderer and generation coordinator.

Go strings are byte sequences; they are embedded as lists of byte values, so that
byte slicing (`v[0:1]`, `v[1:]`), rune iteration (`for i, v := range s`) and
`string(rune)` keep the meaning they have in Go.  A Go run-time panic (slice bounds
out of range) is embedded as `none`.
-/

namespace DbStruct

/-! ## Go strings and UTF-8 -/

/-- A Go string: an immutable sequence of bytes, each below 256. -/
abbrev GoString := List Nat

/-- The rune U+FFFD that Go substitutes for bytes that are not valid UTF-8. -/
def RuneError : Nat := 0xFFFD

/-- Go conversion `string(r)` of a rune: its UTF-8 encoding; surrogates and values
beyond U+10FFFF are encoded as U+FFFD. -/
def encodeRune (r : Nat) : GoString :=
  if r < 0x80 then [r]
  else if r < 0x800 then [0xC0 + r / 64, 0x80 + r % 64]
  else if 0xD800 ≤ r ∧ r ≤ 0xDFFF then [0xEF, 0xBF, 0xBD]
  else if r < 0x10000 then [0xE0 + r / 4096, 0x80 + r / 64 % 64, 0x80 + r % 64]
  else if r ≤ 0x10FFFF then
    [0xF0 + r / 262144, 0x80 + r / 4096 % 64, 0x80 + r / 64 % 64, 0x80 + r % 64]
  else [0xEF, 0xBF, 0xBD]

/-- The bytes of a string literal of the source (its UTF-8 encoding). -/
def str (s : String) : GoString :=
  (s.data.map fun c => encodeRune c.toNat).flatten

/-- A continuation byte of UTF-8. -/
def isCont (b : Nat) : Bool := decide (0x80 ≤ b) && decide (b ≤ 0xBF)

/-- Lower bound that Go's `acceptRanges` puts on the second byte after lead byte `b0`. -/
def secondLo (b0 : Nat) : Nat :=
  if b0 = 0xE0 then 0xA0 else if b0 = 0xF0 then 0x90 else 0x80

/-- Upper bound that Go's `acceptRanges` puts on the second byte after lead byte `b0`. -/
def secondHi (b0 : Nat) : Nat :=
  if b0 = 0xED then 0x9F else if b0 = 0xF4 then 0x8F else 0xBF

/-- Go `utf8.DecodeRuneInString`: the first rune of the string and its width in bytes;
a byte that starts no valid encoding decodes as `(RuneError, 1)`. -/
def decodeRune : GoString → Nat × Nat
  | [] => (RuneError, 0)
  | b0 :: rest =>
    if b0 < 0x80 then (b0, 1)
    else if 0xC2 ≤ b0 ∧ b0 ≤ 0xDF then
      match rest with
      | b1 :: _ =>
        if isCont b1 then ((b0 - 0xC0) * 64 + (b1 - 0x80), 2) else (RuneError, 1)
      | [] => (RuneError, 1)
    else if 0xE0 ≤ b0 ∧ b0 ≤ 0xEF then
      match rest with
      | b1 :: b2 :: _ =>
        if secondLo b0 ≤ b1 ∧ b1 ≤ secondHi b0 ∧ isCont b2 = true then
          ((b0 - 0xE0) * 4096 + (b1 - 0x80) * 64 + (b2 - 0x80), 3)
        else (RuneError, 1)
      | _ => (RuneError, 1)
    else if 0xF0 ≤ b0 ∧ b0 ≤ 0xF4 then
      match rest with
      | b1 :: b2 :: b3 :: _ =>
        if secondLo b0 ≤ b1 ∧ b1 ≤ secondHi b0 ∧ isCont b2 = true ∧ isCont b3 = true then
          ((b0 - 0xF0) * 262144 + (b1 - 0x80) * 4096 + (b2 - 0x80) * 64 + (b3 - 0x80), 4)
        else (RuneError, 1)
      | _ => (RuneError, 1)
    else (RuneError, 1)

/-- The loop `for i, v := range s`: the pairs (byte index, rune) it visits.  `i` is
the index of the current byte and `skip` the number of bytes still belonging to the
rune decoded last. -/
def rangeLoop (i skip : Nat) : GoString → List (Nat × Nat)
  | [] => []
  | b :: rest =>
    if skip = 0 then
      (i, (decodeRune (b :: rest)).1) ::
        rangeLoop (i + 1) ((decodeRune (b :: rest)).2 - 1) rest
    else rangeLoop (i + 1) (skip - 1) rest

/-- The pairs (byte index, rune) of `for i, v := range s`. -/
def rangeString (s : GoString) : List (Nat × Nat) := rangeLoop 0 0 s

/-- Go `strings.Split(s, sep)` for a one-byte separator: the pieces between the
occurrences of the separator; the empty string gives one empty piece. -/
def stringsSplit (sep : Nat) : GoString → List GoString
  | [] => [[]]
  | b :: rest =>
    if b = sep then [] :: stringsSplit sep rest
    else
      match stringsSplit sep rest with
      | [] => [[b]]
      | seg :: segs => (b :: seg) :: segs

/-- Go slice expression `v[0:1]`: panics when `v` is empty. -/
def sliceTo1 : GoString → Option GoString
  | [] => none
  | b :: _ => some [b]

/-- Go slice expression `v[1:]`: panics when `v` is empty. -/
def sliceFrom1 : GoString → Option GoString
  | [] => none
  | _ :: rest => some rest

/-- ASCII upper-casing of a byte. -/
def upperASCII (b : Nat) : Nat := if 97 ≤ b ∧ b ≤ 122 then b - 32 else b

/-- ASCII lower-casing of a byte. -/
def lowerASCII (b : Nat) : Nat := if 65 ≤ b ∧ b ≤ 90 then b + 32 else b

/-- Go `strings.ToUpper` on a string of at most one byte (all the source applies it
to): an ASCII byte is upper-cased, any other single byte is invalid UTF-8 and is
mapped to the encoding of U+FFFD. -/
def stringsToUpper (s : GoString) : GoString :=
  (s.map fun b => if b < 0x80 then [upperASCII b] else encodeRune RuneError).flatten

/-- Go `strings.ToLower` on a string of at most one byte, as `stringsToUpper`. -/
def stringsToLower (s : GoString) : GoString :=
  (s.map fun b => if b < 0x80 then [lowerASCII b] else encodeRune RuneError).flatten

/-- The part of Go's Unicode tables beyond ASCII, which the source only consults
through `unicode.IsUpper` and `unicode.ToLower`. -/
structure UnicodeTables where
  /-- Membership in category Lu for runes beyond ASCII. -/
  isUpper : Nat → Bool
  /-- The lower-case mapping for runes beyond ASCII. -/
  toLower : Nat → Nat

/-- Go `unicode.IsUpper`. -/
def unicodeIsUpper (u : UnicodeTables) (r : Nat) : Bool :=
  if r < 0x80 then decide (65 ≤ r ∧ r ≤ 90) else u.isUpper r

/-- Go `unicode.ToLower`. -/
def unicodeToLower (u : UnicodeTables) (r : Nat) : Nat :=
  if r < 0x80 then lowerASCII r else u.toLower r

/-- Unicode tables with no case information beyond ASCII. -/
def asciiTables : UnicodeTables := ⟨fun _ => false, fun r => r⟩

/-! ## Name formatting -/

/-- The casing mode, `type FmtMode uint16`. -/
abbrev FmtMode := Nat

/-- Mode 0: the name as it is. -/
abbrev FmtDefault : FmtMode := 0
/-- Mode 1: underscores to camel case with an upper-case start. -/
abbrev FmtUnderlineToStartUpHump : FmtMode := 1
/-- Mode 2: underscores to camel case with a lower-case start. -/
abbrev FmtUnderlineToStartLowHump : FmtMode := 2
/-- Mode 3: camel case to underscores. -/
abbrev FmtUnderline : FmtMode := 3

/-- The loop of case `FmtUnderlineToStartUpHump`:
`for _, v := range split { res += strings.ToUpper(v[0:1]) + v[1:] }`. -/
def upHumpLoop (res : GoString) : List GoString → Option GoString
  | [] => some res
  | v :: rest =>
    match sliceTo1 v, sliceFrom1 v with
    | some h, some t => upHumpLoop (res ++ (stringsToUpper h ++ t)) rest
    | _, _ => none

/-- The loop of case `FmtUnderlineToStartLowHump`, `i` being the index of the next
piece. -/
def lowHumpLoop (i : Nat) (res : GoString) : List GoString → Option GoString
  | [] => some res
  | v :: rest =>
    match sliceTo1 v, sliceFrom1 v with
    | some h, some t =>
      lowHumpLoop (i + 1)
        ((res ++ if i = 0 then stringsToLower h else stringsToUpper h) ++ t) rest
    | _, _ => none

/-- The loop of case `FmtUnderline` over the runes of the string, writing to the
buffer `b`. -/
def underlineLoop (u : UnicodeTables) (b : GoString) : List (Nat × Nat) → GoString
  | [] => b
  | (i, v) :: rest =>
    if unicodeIsUpper u v then
      underlineLoop u
        ((if i ≠ 0 then b ++ str "_" else b) ++ encodeRune (unicodeToLower u v)) rest
    else underlineLoop u (b ++ encodeRune v) rest

/-- The method `getFormatName`; `none` is a run-time panic.  A mode outside the four
constants matches no case and leaves the result empty. -/
def getFormatName (u : UnicodeTables) (s : GoString) (m : FmtMode) : Option GoString :=
  if m = FmtUnderlineToStartUpHump then upHumpLoop [] (stringsSplit 95 s)
  else if m = FmtUnderlineToStartLowHump then lowHumpLoop 0 [] (stringsSplit 95 s)
  else if m = FmtUnderline then some (underlineLoop u [] (rangeString s))
  else if m = FmtDefault then some s
  else some []

/-! ## Type mapping -/

/-- The table `types`: MySQL type names and the Go types they map to. -/
def types : List (GoString × GoString) :=
  [ (str "int", str "int"),
    (str "integer", str "int"),
    (str "tinyint", str "int8"),
    (str "smallint", str "int16"),
    (str "mediumint", str "int32"),
    (str "bigint", str "int64"),
    (str "int unsigned", str "int64"),
    (str "integer unsigned", str "int64"),
    (str "tinyint unsigned", str "int64"),
    (str "smallint unsigned", str "int64"),
    (str "mediumint unsigned", str "int64"),
    (str "bigint unsigned", str "int64"),
    (str "bit", str "int64"),
    (str "float", str "float64"),
    (str "double", str "float64"),
    (str "decimal", str "float64"),
    (str "binary", str "string"),
    (str "varbinary", str "string"),
    (str "enum", str "string"),
    (str "set", str "string"),
    (str "varchar", str "string"),
    (str "char", str "string"),
    (str "tinytext", str "string"),
    (str "mediumtext", str "string"),
    (str "text", str "string"),
    (str "longtext", str "string"),
    (str "blob", str "string"),
    (str "tinyblob", str "string"),
    (str "mediumblob", str "string"),
    (str "longblob", str "string"),
    (str "bool", str "bool"),
    (str "date", str "time.Time"),
    (str "datetime", str "time.Time"),
    (str "timestamp", str "time.Time"),
    (str "time", str "time.Time") ]

/-- Go map indexing `m[k]` with the comma-ok form, on a map given by its entries. -/
def mapGet {V : Type} (m : List (GoString × V)) (k : GoString) : Option V :=
  match m with
  | [] => none
  | (k1, v) :: rest => if k1 = k then some v else mapGet rest k

/-- Go map assignment `m[k] = v`: the entry of `k` is overwritten, or added when the
key is new.  Go leaves the iteration order of a map unspecified; the entries are kept
in the order in which their keys were first assigned. -/
def mapSet {V : Type} (m : List (GoString × V)) (k : GoString) (v : V) :
    List (GoString × V) :=
  match m with
  | [] => [(k, v)]
  | (k1, v1) :: rest => if k1 = k then (k1, v) :: rest else (k1, v1) :: mapSet rest k v

/-- The method `getColumnGoType`. -/
def getColumnGoType (dbType : GoString) : GoString :=
  match mapGet types dbType with
  | some res => res
  | none => str "string"

/-! ## Configuration and rendering -/

/-- The struct `Tag`. -/
structure Tag where
  /-- The name of the tag. -/
  TagName : GoString
  /-- The casing mode of the tag's value. -/
  Mode : FmtMode
deriving DecidableEq, Repr

/-- The struct `column`; the field `Type` of the source is `Typ` here. -/
structure column where
  /-- COLUMN_NAME. -/
  Name : GoString
  /-- DATA_TYPE. -/
  Typ : GoString
  /-- IS_NULLABLE. -/
  Nullable : GoString
  /-- TABLE_NAME. -/
  Table : GoString
  /-- COLUMN_COMMENT. -/
  Comment : GoString
deriving DecidableEq, Repr

/-- A Go `error` value, given by its message. -/
abbrev GoError := GoString

/-- The struct `dbStruct`.  The field `db` is embedded as the flag `dbOpen`
(`ds.db != nil`); a nil slice and an empty slice are both the empty list. -/
structure dbStruct where
  /-- The connection descriptor. -/
  dsn : GoString
  /-- The table allow-list. -/
  tables : List GoString
  /-- The json convenience flag. -/
  tagJson : Bool
  /-- The orm convenience flag. -/
  tagOrm : Bool
  /-- The casing mode of field names. -/
  fieldNameFmt : FmtMode
  /-- The casing mode of struct names. -/
  structNameFmt : FmtMode
  /-- The casing mode of file names. -/
  fileNameFmt : FmtMode
  /-- The name of the accessor method. -/
  genTableName : GoString
  /-- Whether the accessor method is generated. -/
  genTableNameFunc : Bool
  /-- The output path. -/
  modelPath : GoString
  /-- Whether all structs go to one file. -/
  singleFile : Bool
  /-- The package name. -/
  packageName : GoString
  /-- The tag list. -/
  tags : List Tag
  /-- Whether `db` is non-nil. -/
  dbOpen : Bool
  /-- The field `err`. -/
  err : Option GoError
deriving DecidableEq, Repr

/-- The constructor `NewDBStruct`. -/
def NewDBStruct : dbStruct :=
  { dsn := [], tables := [], tagJson := false, tagOrm := false,
    fieldNameFmt := FmtDefault, structNameFmt := FmtDefault, fileNameFmt := FmtDefault,
    genTableName := str "TableName", genTableNameFunc := false, modelPath := [],
    singleFile := false, packageName := [], tags := [], dbOpen := false, err := none }

/-- The constructor `NewTag`. -/
def NewTag (tagName : GoString) (mode : FmtMode) : Tag := ⟨tagName, mode⟩

/-- The setter `AppendTag`. -/
def AppendTag (ds : dbStruct) (v : Tag) : dbStruct := { ds with tags := ds.tags ++ [v] }

/-- The struct `genStructRes`. -/
structure genStructRes where
  /-- The name of the struct. -/
  structName : GoString
  /-- The rendered text. -/
  content : GoString
  /-- The field `err`, which `genStruct` leaves nil. -/
  err : Option GoError
  /-- Whether the single file needs the import of package `time`. -/
  needImportTimePkg : Bool
deriving DecidableEq, Repr

/-- Whether `p` is an initial part of `s` (Go `strings.HasPrefix(s, p)`). -/
def startsWith : GoString → GoString → Bool
  | [], _ => true
  | _ :: _, [] => false
  | a :: p, b :: s => decide (a = b) && startsWith p s

/-- Go `strings.Replace(s, old, new, 1)` for a non-empty `old`: the leftmost
occurrence of `old` is replaced by `new`. -/
def stringsReplace1 (old new : GoString) : GoString → GoString
  | [] => []
  | b :: rest =>
    if startsWith old (b :: rest) then new ++ (b :: rest).drop old.length
    else b :: stringsReplace1 old new rest

/-- The placeholder that `genStruct` writes for the import clause. -/
def importTimePkgMark : GoString := str "\x7b@importTimePkg@\x7d"

/-- The loop over `ds.tags` in `genStruct`; `n` is `len(ds.tags)` and `i` the index
of the next tag. -/
def tagLoop (u : UnicodeTables) (name : GoString) (n i : Nat) (tagString : GoString) :
    List Tag → Option GoString
  | [] => some tagString
  | tag :: rest =>
    match getFormatName u name tag.Mode with
    | none => none
    | some v =>
      if i = n - 1 then
        tagLoop u name n (i + 1) (tagString ++ (tag.TagName ++ str ":\"" ++ v ++ str "\"")) rest
      else
        tagLoop u name n (i + 1) (tagString ++ (tag.TagName ++ str ":\"" ++ v ++ str "\" ")) rest

/-- The value of `tagString` that `genStruct` computes for a column. -/
def genTagString (u : UnicodeTables) (ds : dbStruct) (c : column) : Option GoString :=
  if ds.tags.length > 0 then
    match tagLoop u c.Name ds.tags.length 0 [96] ds.tags with
    | none => none
    | some t => some (t ++ [96])
  else some []

/-- The variables that the column loop of `genStruct` updates. -/
structure genState where
  /-- The text written so far. -/
  buffer : GoString
  /-- The variable `importTimePkgStr`. -/
  importTimePkgStr : GoString
  /-- The field `res.needImportTimePkg`. -/
  needImportTimePkg : Bool
deriving DecidableEq, Repr

/-- One iteration of the column loop of `genStruct`. -/
def genColumn (u : UnicodeTables) (ds : dbStruct) (st : genState) (c : column) :
    Option genState :=
  match getFormatName u c.Name ds.fieldNameFmt with
  | none => none
  | some columnName =>
    let goType := getColumnGoType c.Typ
    let st1 : genState :=
      if st.importTimePkgStr = [] ∧ goType = str "time.Time" ∧ ds.singleFile = false then
        { st with importTimePkgStr := str "import \"time\"\n\n" }
      else if st.needImportTimePkg = false ∧ ds.singleFile = true ∧ goType = str "time.Time" then
        { st with needImportTimePkg := true }
      else st
    match genTagString u ds c with
    | none => none
    | some tagString =>
      let buffer1 :=
        if c.Comment ≠ [] then st1.buffer ++ (str "\t// " ++ c.Comment ++ str "\n")
        else st1.buffer
      some { st1 with
        buffer := buffer1 ++
          (str "\t" ++ columnName ++ str " " ++ goType ++ str " " ++ tagString ++ str "\n") }

/-- The column loop of `genStruct`. -/
def genColumns (u : UnicodeTables) (ds : dbStruct) (st : genState) :
    List column → Option genState
  | [] => some st
  | c :: rest =>
    match genColumn u ds st c with
    | none => none
    | some st1 => genColumns u ds st1 rest

/-- The package header that `genStruct` writes in multi-file mode, with the
placeholder of the import clause. -/
def genHeader (ds : dbStruct) : GoString :=
  if ds.singleFile = false then
    str "package " ++ ds.packageName ++ str "\n\n " ++ importTimePkgMark ++ str "\n\n "
  else []

/-- The accessor method that `genStruct` appends when it is configured; `none` is the
panic of `structName[0:1]` on an empty struct name. -/
def genMethod (ds : dbStruct) (structName table : GoString) : Option GoString :=
  if ds.genTableNameFunc = true ∧ ds.genTableName ≠ [] then
    match sliceTo1 structName with
    | none => none
    | some h =>
      some (str "func (" ++ stringsToLower h ++ str " *" ++ structName ++ str ") " ++
        ds.genTableName ++ str "() string \x7b\n\treturn \"" ++ table ++ str "\"\n\x7d")
  else some []

/-- The method `genStruct`, as the result it sends on the channel; `none` is a
run-time panic. -/
def genStruct (u : UnicodeTables) (ds : dbStruct) (table : GoString)
    (columns : List column) : Option genStructRes :=
  match getFormatName u table ds.structNameFmt with
  | none => none
  | some structName =>
    match genColumns u ds
        ⟨genHeader ds ++ (str "type " ++ structName ++ str " struct \x7b\n"), [], false⟩
        columns with
    | none => none
    | some st =>
      match genMethod ds structName table with
      | none => none
      | some m =>
        some { structName := structName,
               content :=
                 stringsReplace1 importTimePkgMark st.importTimePkgStr
                   (st.buffer ++ str "\x7d\n\n" ++ m),
               err := none,
               needImportTimePkg := st.needImportTimePkg }

/-! ## Schema reading -/

/-- The external collaborators of `Generate`: the database driver, the working
directory and the file system, each given by what it answers. -/
structure Env where
  /-- The error of `sql.Open("mysql", dsn)`, `none` when it succeeds. -/
  sqlOpen : GoString → Option GoError
  /-- The answer of `db.Query` to a query text: an error or the rows, each of which
  scans to a column or to an error. -/
  query : GoString → Except GoError (List (Except GoError column))
  /-- The error of `rows.Close`, `none` when it succeeds. -/
  rowsClose : Option GoError
  /-- The answer of `os.Getwd`. -/
  getwd : Except GoError GoString
  /-- The error of `os.MkdirAll` on a path, `none` when it succeeds. -/
  mkdirAll : GoString → Option GoError
  /-- The error of `os.Create` on a path, `none` when it succeeds. -/
  create : GoString → Option GoError
  /-- The error of `ioutil.WriteFile` on a path and a content, `none` when it succeeds. -/
  writeFile : GoString → GoString → Option GoError

/-- The loop of `getTables` that writes the list of allowed tables; `n` is
`len(ds.tables)` and `i` the index of the next name. -/
def tableInLoop (n i : Nat) (buff : GoString) : List GoString → GoString
  | [] => buff
  | tableName :: rest =>
    tableInLoop n (i + 1)
      ((buff ++ str "'" ++ tableName ++ str "'") ++ if i ≠ n - 1 then str ", " else []) rest

/-- The query text that `getTables` sends. -/
def sqlString (ds : dbStruct) : GoString :=
  let tableIn : GoString :=
    if ds.tables.length > 0 then
      tableInLoop ds.tables.length 0 (str "AND TABLE_NAME IN (") ds.tables ++ str ")"
    else []
  str ("SELECT COLUMN_NAME AS `Name`,DATA_TYPE AS `Type`,IS_NULLABLE AS `Nullable`,TABLE_NAME AS " ++
    "`Table`,COLUMN_COMMENT AS `Comment` FROM information_schema.COLUMNS WHERE table_schema=DATABASE () ")
    ++ tableIn ++ str " ORDER BY TABLE_NAME ASC"

/-- The loop `for rows.Next()` of `getTables`: every row is appended to the entry of
its table; a row that fails to scan ends the loop with its error. -/
def groupRows (tables : List (GoString × List column)) :
    List (Except GoError column) → Except GoError (List (GoString × List column))
  | [] => Except.ok tables
  | Except.error e :: _ => Except.error e
  | Except.ok c :: rest =>
    let tables1 :=
      match mapGet tables c.Table with
      | none => mapSet tables c.Table []
      | some _ => tables
    groupRows (mapSet tables1 c.Table ((mapGet tables1 c.Table).getD [] ++ [c])) rest

/-- How a call ends: it returns, with an error or nil, or the process stops on a
panic, or it stops in `log.Fatalf`. -/
inductive Exit where
  /-- The call returns the given error (`none` is nil). -/
  | returned (err : Option GoError)
  /-- A run-time panic stops the process. -/
  | panicked
  /-- `log.Fatalf` stops the process. -/
  | fatal
deriving DecidableEq, Repr

/-- The method `getTables`: the grouped rows, an error, or (`none`) the stop in
`log.Fatalf` when closing the rows fails. -/
def getTables (env : Env) (ds : dbStruct) :
    Option (Except GoError (List (GoString × List column))) :=
  match env.query (sqlString ds) with
  | Except.error e => some (Except.error e)
  | Except.ok rows =>
    match env.rowsClose with
    | some _ => none
    | none => some (groupRows [] rows)

/-! ## Generation -/

/-- The method `connectDB`. -/
def connectDB (env : Env) (ds : dbStruct) : dbStruct :=
  if ds.dbOpen = false then
    match env.sqlOpen ds.dsn with
    | none => { ds with dbOpen := true, err := none }
    | some e => { ds with dbOpen := false, err := some e }
  else ds

/-- The tag additions at the start of `Generate`. -/
def addFlagTags (ds : dbStruct) : dbStruct :=
  let ds1 := if ds.tagJson = true then AppendTag ds (NewTag (str "json") FmtDefault) else ds
  if ds1.tagOrm = true then AppendTag ds1 (NewTag (str "orm") FmtDefault) else ds1

/-- The rendering of all tables.  The source starts one goroutine per table and the
results arrive in an unspecified order; here they are listed in the order of the
tables.  A panic in any goroutine stops the process (`none`). -/
def genAll (u : UnicodeTables) (ds : dbStruct) :
    List (GoString × List column) → Option (List genStructRes)
  | [] => some []
  | (table, columns) :: rest =>
    match genStruct u ds table columns, genAll u ds rest with
    | some r, some rs => some (r :: rs)
    | _, _ => none

/-- The loop of `Generate` that receives the results from the channel, filling the
map `writes` and the flag `needImportTimePkg`. -/
def collectLoop (writes : List (GoString × GoString)) (needImportTimePkg : Bool) :
    List genStructRes → List (GoString × GoString) × Bool
  | [] => (writes, needImportTimePkg)
  | gchRes :: rest =>
    collectLoop (mapSet writes gchRes.structName gchRes.content)
      (if needImportTimePkg = false then gchRes.needImportTimePkg else needImportTimePkg) rest

/-- The directory part of Go `filepath.Split` with separator `/`: the path up to and
including its last separator. -/
def filepathSplitDir (path : GoString) : GoString :=
  (path.reverse.dropWhile fun b => b ≠ 47).reverse

/-- The content of the single output file, assembled from the map `writes`. -/
def finalContent (ds : dbStruct) (needImportTimePkg : Bool)
    (writes : List (GoString × GoString)) : GoString :=
  (str "package " ++ ds.packageName ++ str "\n\n") ++
    (if needImportTimePkg = true then str "import \"time\"\n\n" else []) ++
    (writes.map fun w => w.2 ++ str "\n\n\n").flatten

/-- What a call of `Generate` leaves behind. -/
structure Outcome where
  /-- The configuration after the call. -/
  ds : dbStruct
  /-- How the call ended. -/
  exit : Exit
  /-- The files created or written by the call, with their content, oldest first. -/
  written : List (GoString × GoString)
deriving DecidableEq, Repr

/-- The path that `writeManyFile` makes of a file name,
`fmt.Sprintf("%s/%s.go", ds.modelPath, filename)`. -/
def pathOf (ds : dbStruct) (filename : GoString) : GoString :=
  ds.modelPath ++ str "/" ++ filename ++ str ".go"

/-- The method `writeManyFile` without its formatter call: the path and content it
writes; `none` is a panic of `getFormatName`. -/
def writeManyFile (u : UnicodeTables) (ds : dbStruct) (name content : GoString) :
    Option (GoString × GoString) :=
  match getFormatName u name ds.fileNameFmt with
  | none => none
  | some filename => some (pathOf ds filename, content)

/-- The writes of multi-file mode.  The source starts one goroutine per entry of
`writes`; here the entries are written one after the other.  A failing write stops the
process in `log.Fatalf`. -/
def writeMany (u : UnicodeTables) (env : Env) (ds : dbStruct)
    (written : List (GoString × GoString)) : List (GoString × GoString) → Outcome
  | [] => ⟨ds, Exit.returned none, written⟩
  | (name, content) :: rest =>
    match writeManyFile u ds name content with
    | none => ⟨ds, Exit.panicked, written⟩
    | some (filename, c) =>
      match env.writeFile filename c with
      | some _ => ⟨ds, Exit.fatal, written⟩
      | none => writeMany u env ds (written ++ [(filename, c)]) rest

/-- The default of `ds.modelPath` in `Generate`: an error of `os.Getwd`, or the
configuration with its path set. -/
def defaultModelPath (env : Env) (ds : dbStruct) : Except GoError dbStruct :=
  if ds.modelPath = [] then
    match env.getwd with
    | Except.error e => Except.error e
    | Except.ok wd =>
      Except.ok { ds with
        modelPath := wd ++ if ds.singleFile = true then str "/model/models.go" else str "/model" }
  else Except.ok ds

/-- The output step of `Generate`, after the results are collected. -/
def output (u : UnicodeTables) (env : Env) (ds : dbStruct)
    (writes : List (GoString × GoString)) (needImportTimePkg : Bool) : Outcome :=
  if ds.singleFile = true then
    match env.mkdirAll (filepathSplitDir ds.modelPath) with
    | some e => ⟨ds, Exit.returned (some e), []⟩
    | none =>
      match env.create ds.modelPath with
      | some e => ⟨ds, Exit.returned (some e), []⟩
      | none =>
        match env.writeFile ds.modelPath (finalContent ds needImportTimePkg writes) with
        | some _ => ⟨ds, Exit.fatal, [(ds.modelPath, [])]⟩
        | none =>
          ⟨ds, Exit.returned none,
            [(ds.modelPath, []), (ds.modelPath, finalContent ds needImportTimePkg writes)]⟩
  else
    match env.mkdirAll ds.modelPath with
    | some e => ⟨ds, Exit.returned (some e), []⟩
    | none => writeMany u env ds [] writes

/-- The method `Generate`, without its timing, logging and formatter calls. -/
def Generate (u : UnicodeTables) (env : Env) (ds : dbStruct) : Outcome :=
  if ds.dsn = [] then ⟨ds, Exit.returned (some (str "DSN未配置")), []⟩
  else
    let ds1 := connectDB env ds
    match ds1.err with
    | some e => ⟨ds1, Exit.returned (some e), []⟩
    | none =>
      let ds2 := addFlagTags ds1
      match getTables env ds2 with
      | none => ⟨ds2, Exit.fatal, []⟩
      | some (Except.error e) => ⟨ds2, Exit.returned (some e), []⟩
      | some (Except.ok tables) =>
        match genAll u ds2 tables with
        | none => ⟨ds2, Exit.panicked, []⟩
        | some results =>
          match defaultModelPath env ds2 with
          | Except.error e => ⟨ds2, Exit.returned (some e), []⟩
          | Except.ok ds3 =>
            output u env ds3 (collectLoop [] false results).1 (collectLoop [] false results).2

/-- The number of files among the writes of a call: the number of distinct paths. -/
def fileCount (written : List (GoString × GoString)) : Nat :=
  (written.map Prod.fst).dedup.length
/-- The characters of a string as `for _, v := range s` reads them. -/
def runes (s : GoString) : List Nat := (rangeString s).map Prod.snd

/-- The string made of the given characters (`string(r)` of each, concatenated). -/
def encodeRunes (cs : List Nat) : GoString := (cs.map encodeRune).flatten

/-- A Unicode scalar value: a code point up to U+10FFFF that is not a surrogate. -/
def validRune (c : Nat) : Prop := c < 0xD800 ∨ (0xE000 ≤ c ∧ c ≤ 0x10FFFF)

instance (c : Nat) : Decidable (validRune c) := by unfold validRune; infer_instance

/-- What camel-to-snake puts for the character `c` at position `pos`: an upper-case
letter becomes its lower-case form, after an underscore unless it is at position 0;
any other character stays. -/
def snakeChar (u : UnicodeTables) (pos c : Nat) : List Nat :=
  if unicodeIsUpper u c = true then
    if pos = 0 then [unicodeToLower u c] else [95, unicodeToLower u c]
  else [c]

/-- Camel-to-snake on the characters from position `pos` on. -/
def snakeFrom (u : UnicodeTables) (pos : Nat) : List Nat → List Nat
  | [] => []
  | c :: rest => snakeChar u pos c ++ snakeFrom u (pos + 1) rest

/-- Camel-to-snake on a sequence of characters, scanned from position 0. -/
def camelToSnake (u : UnicodeTables) (cs : List Nat) : List Nat := snakeFrom u 0 cs

/-- One tag pair: the tag name, a colon, and the value in double quotes. -/
def tagPair (tagName value : GoString) : GoString :=
  tagName ++ str ":\"" ++ value ++ str "\""

/-- The tag pairs of a column name in the order of the tags, each value being the
name formatted with the mode of its tag; `none` when a value cannot be formatted. -/
def tagPairs (u : UnicodeTables) (name : GoString) : List Tag → Option (List GoString)
  | [] => some []
  | tag :: rest =>
    match getFormatName u name tag.Mode, tagPairs u name rest with
    | some v, some ps => some (tagPair tag.TagName v :: ps)
    | _, _ => none

/-- The tag clause made of the given pairs: nothing for no pair, else the pairs
joined by one space between backquotes. -/
def tagClause (pairs : List GoString) : GoString :=
  if pairs = [] then [] else [96] ++ List.intercalate [32] pairs ++ [96]

/-- Whether a column maps to the Go type `time.Time`. -/
def isTimeColumn (c : column) : Bool := decide (getColumnGoType c.Typ = str "time.Time")

/-- The file name that multi-file mode gives to a table: the table name formatted
with the struct-name mode, and that struct name formatted with the file-name mode. -/
def fileNameOf (u : UnicodeTables) (ds : dbStruct) (table : GoString) : Option GoString :=
  match getFormatName u table ds.structNameFmt with
  | none => none
  | some structName => getFormatName u structName ds.fileNameFmt

/-- The table `user_group` of the end-to-end scenario. -/
def userGroupColumns : List column :=
  [ ⟨str "id", str "bigint", str "NO", str "user_group", []⟩,
    ⟨str "user_name", str "varchar", str "NO", str "user_group", []⟩,
    ⟨str "created_at", str "datetime", str "NO", str "user_group", []⟩ ]

/-- The configuration of the end-to-end scenario, in multi-file mode. -/
def scenarioDs : dbStruct :=
  { NewDBStruct with
    dsn := str "root:root@tcp(127.0.0.1:3306)/hm?charset=utf8",
    structNameFmt := FmtUnderlineToStartUpHump,
    fieldNameFmt := FmtUnderlineToStartUpHump,
    genTableNameFunc := true,
    packageName := str "model",
    tags := [NewTag (str "json") FmtUnderlineToStartLowHump] }

/-- A database that opens, answers every query with the given rows, and a file
system on which every operation succeeds, with working directory `/w`. -/
def scenarioEnv (rows : List column) : Env :=
  { sqlOpen := fun _ => none,
    query := fun _ => Except.ok (rows.map Except.ok),
    rowsClose := none,
    getwd := Except.ok (str "/w"),
    mkdirAll := fun _ => none,
    create := fun _ => none,
    writeFile := fun _ _ => none }

/-- The schema of the scenario extended by a table `orders`, as `getTables` groups it. -/
def scenarioTables : List (GoString × List column) :=
  [ (str "user_group", userGroupColumns),
    (str "orders", [⟨str "id", str "int", str "NO", str "orders", []⟩]) ]

/-- The rows of `scenarioTables` in the order the database returns them. -/
def scenarioRows : List column :=
  userGroupColumns ++ [⟨str "id", str "int", str "NO", str "orders", []⟩]

/-- The rows of two tables, `user_group` and `UserGroup`, of one column each. -/
def twoTableRows : List column :=
  [ ⟨str "id", str "bigint", str "NO", str "UserGroup", []⟩,
    ⟨str "id", str "bigint", str "NO", str "user_group", []⟩ ]

/-! ## Specification-side definitions -/

/-- A piece with its first letter upper-cased and the rest unchanged. -/
def upperFirst : GoString → GoString
  | [] => []
  | b :: rest => upperASCII b :: rest

/-- A piece with its first letter lower-cased and the rest unchanged. -/
def lowerFirst : GoString → GoString
  | [] => []
  | b :: rest => lowerASCII b :: rest

/-- Upper camel case of a list of pieces: every piece with its first letter
upper-cased, concatenated without separator. -/
def upperCamel (segs : List GoString) : GoString := (segs.map upperFirst).flatten

/-- Lower camel case of a list of pieces: the first piece with its first letter
lower-cased, every later piece with its first letter upper-cased, concatenated. -/
def lowerCamel : List GoString → GoString
  | [] => []
  | first :: later => lowerFirst first ++ (later.map upperFirst).flatten

/-- A piece that is non-empty and begins with an ASCII character. -/
def asciiLed (seg : GoString) : Prop := ∃ b rest, seg = b :: rest ∧ b < 0x80

instance (seg : GoString) : Decidable (asciiLed seg) :=
  match seg with
  | [] => isFalse (by rintro ⟨b, rest, h, _⟩; cases h)
  | b :: rest =>
    if h : b < 0x80 then isTrue ⟨b, rest, rfl, h⟩
    else isFalse (by rintro ⟨b1, rest1, h1, h2⟩; cases h1; exact h h2)

/-! ## Specification-side definitions for rendering and generation -/

/-- Go `strings.Contains(s, sub)`. -/
def stringsContains (sub : GoString) : GoString → Bool
  | [] => startsWith sub []
  | b :: rest => startsWith sub (b :: rest) || stringsContains sub rest

/-- The comment line of a column comment: nothing for an empty comment, else a tab,
two slashes, the comment and a line end. -/
def commentLine (comment : GoString) : GoString :=
  if comment = [] then [] else str "\t// " ++ comment ++ str "\n"

/-- The field line of a column name and column type: a tab, the name formatted with
the field-name mode, the mapped Go type and the tag clause, separated by one space;
`none` when the name cannot be formatted. -/
def fieldLine (u : UnicodeTables) (ds : dbStruct) (name typ : GoString) : Option GoString :=
  match getFormatName u name ds.fieldNameFmt, tagPairs u name ds.tags with
  | some fieldName, some pairs =>
    some (str "\t" ++ fieldName ++ str " " ++ getColumnGoType typ ++ str " " ++
      tagClause pairs ++ str "\n")
  | _, _ => none

/-- The lines of the columns in column order: for every column its comment line and
then its field line. -/
def columnsText (u : UnicodeTables) (ds : dbStruct) : List column → Option GoString
  | [] => some []
  | c :: rest =>
    match fieldLine u ds c.Name c.Typ, columnsText u ds rest with
    | some line, some text => some (commentLine c.Comment ++ line ++ text)
    | _, _ => none

/-- The accessor method of a struct name and table name: nothing unless the toggle is
on and the method name is non-empty; else a method of the configured name with a
pointer receiver of the struct type, returning the table name as a string constant. -/
def accessorMethod (ds : dbStruct) (structName table : GoString) : GoString :=
  if ds.genTableNameFunc = true ∧ ds.genTableName ≠ [] then
    str "func (" ++ stringsToLower (structName.take 1) ++ str " *" ++ structName ++ str ") " ++
      ds.genTableName ++ str "() string \x7b\n\treturn \"" ++ table ++ str "\"\n\x7d"
  else []

/-- The declaration of a table: the type line, the lines of the columns, the closing
brace with an empty line, and the accessor method. -/
def declText (structName body method : GoString) : GoString :=
  str "type " ++ structName ++ str " struct \x7b\n" ++ body ++ str "\x7d\n\n" ++ method

/-- The import clause of a table's own file: written in multi-file mode when a column
maps to `time.Time`. -/
def importClause (ds : dbStruct) (columns : List column) : GoString :=
  if ds.singleFile = false ∧ columns.any isTimeColumn = true then str "import \"time\"\n\n"
  else []

/-- The tags that `Generate` adds for the convenience flags: json, then orm. -/
def flagTags (ds : dbStruct) : List Tag :=
  (if ds.tagJson = true then [NewTag (str "json") FmtDefault] else []) ++
    (if ds.tagOrm = true then [NewTag (str "orm") FmtDefault] else [])

/-- The configuration of the scenario in single-file mode. -/
def singleFileDs : dbStruct := { scenarioDs with singleFile := true }

/-- The configuration of the scenario in single-file mode without accessor method. -/
def plainDs : dbStruct := { scenarioDs with singleFile := true, genTableNameFunc := false }

/-- The rows of two tables, `orders` and `users`, of one column each. -/
def ordersUsersRows : List column :=
  [ ⟨str "id", str "int", str "NO", str "orders", []⟩,
    ⟨str "id", str "int", str "NO", str "users", []⟩ ]

/-- A column `user_name` with the comment `login name`. -/
def commentedColumn : column :=
  ⟨str "user_name", str "varchar", str "NO", str "user_group", str "login name"⟩

/-- The configuration of the scenario with the json convenience flag and no tag of
its own. -/
def flagDs : dbStruct := { scenarioDs with tags := [], tagJson := true }

/-- An ASCII lower-case letter. -/
def isLowerLetter (b : Nat) : Prop := 97 ≤ b ∧ b ≤ 122

instance (b : Nat) : Decidable (isLowerLetter b) := by unfold isLowerLetter; infer_instance

/-- The configuration of the scenario with both convenience flags set. -/
def bothFlagsDs : dbStruct := { scenarioDs with tagJson := true, tagOrm := true }

/-- The configuration of the scenario without any tag and with no flag. -/
def noTagDs : dbStruct := { scenarioDs with tags := [] }

/-- The configuration of the scenario in single-file mode with struct-name mode
`FmtUnderline`. -/
def snakeStructDs : dbStruct := { singleFileDs with structNameFmt := FmtUnderline }

/-- A column `user_name` whose comment holds the text of the import placeholder. -/
def markedColumn : column :=
  ⟨str "user_name", str "varchar", str "NO", str "user_group", str "x\x7b@importTimePkg@\x7dy"⟩

/-- The one row of a table `orders`. -/
def ordersRows : List column := [⟨str "id", str "int", str "NO", str "orders", []⟩]

/-! ## Lemmas on splitting and the camel-case loops -/

theorem stringsSplit_ne_nil (sep : Nat) (s : GoString) : stringsSplit sep s ≠ [] := by
  induction s with
  | nil => simp [stringsSplit]
  | cons b rest ih =>
    unfold stringsSplit
    split
    · simp
    · split <;> simp

theorem stringsSplit_intercalate (sep : Nat) (s : GoString) :
    List.intercalate [sep] (stringsSplit sep s) = s := by
  induction s with
  | nil => simp [stringsSplit, List.intercalate]
  | cons b rest ih =>
    unfold stringsSplit
    split
    · next h =>
      subst h
      cases hr : stringsSplit b rest with
      | nil => exact absurd hr (stringsSplit_ne_nil _ _)
      | cons seg segs =>
        rw [hr] at ih
        rw [← ih]
        simp [List.intercalate, List.intersperse]
    · cases hr : stringsSplit sep rest with
      | nil => exact absurd hr (stringsSplit_ne_nil _ _)
      | cons seg segs =>
        rw [hr] at ih
        rw [← ih]
        cases segs <;> simp [List.intercalate, List.intersperse]

theorem stringsSplit_no_sep (sep : Nat) (s : GoString) :
    ∀ seg ∈ stringsSplit sep s, sep ∉ seg := by
  induction s with
  | nil => simp [stringsSplit]
  | cons b rest ih =>
    unfold stringsSplit
    split
    · intro seg hseg
      rcases List.mem_cons.1 hseg with h | h
      · simp [h]
      · exact ih seg h
    · next hb =>
      cases hr : stringsSplit sep rest with
      | nil => exact absurd hr (stringsSplit_ne_nil _ _)
      | cons seg segs =>
        rw [hr] at ih
        intro x hx
        rcases List.mem_cons.1 hx with h | h
        · subst h
          have := ih seg (List.mem_cons_self _ _)
          simp only [List.mem_cons, not_or]
          exact ⟨fun h => hb h.symm, this⟩
        · exact ih x (List.mem_cons_of_mem _ h)

theorem upHumpLoop_none_iff (l : List GoString) :
    ∀ res, upHumpLoop res l = none ↔ [] ∈ l := by
  induction l with
  | nil => intro res; simp [upHumpLoop]
  | cons v rest ih =>
    intro res
    cases v with
    | nil => simp [upHumpLoop, sliceTo1]
    | cons b t => simp [upHumpLoop, sliceTo1, sliceFrom1, ih]

theorem lowHumpLoop_none_iff (l : List GoString) :
    ∀ i res, lowHumpLoop i res l = none ↔ [] ∈ l := by
  induction l with
  | nil => intro i res; simp [lowHumpLoop]
  | cons v rest ih =>
    intro i res
    cases v with
    | nil => simp [lowHumpLoop, sliceTo1]
    | cons b t => simp [lowHumpLoop, sliceTo1, sliceFrom1, ih]

theorem stringsToUpper_ascii (b : Nat) (h : b < 0x80) : stringsToUpper [b] = [upperASCII b] := by
  simp [stringsToUpper, h]

theorem stringsToLower_ascii (b : Nat) (h : b < 0x80) : stringsToLower [b] = [lowerASCII b] := by
  simp [stringsToLower, h]

theorem upHumpLoop_asciiLed (l : List GoString) :
    ∀ res, (∀ seg ∈ l, asciiLed seg) → upHumpLoop res l = some (res ++ upperCamel l) := by
  induction l with
  | nil => intro res _; simp [upHumpLoop, upperCamel]
  | cons v rest ih =>
    intro res h
    obtain ⟨b, t, hv, hb⟩ := h v (List.mem_cons_self _ _)
    subst hv
    have hrest : ∀ seg ∈ rest, asciiLed seg := fun seg hs => h seg (List.mem_cons_of_mem _ hs)
    simp only [upHumpLoop, sliceTo1, sliceFrom1]
    rw [ih _ hrest, stringsToUpper_ascii b hb]
    simp [upperCamel, upperFirst]

theorem lowHumpLoop_succ_asciiLed (l : List GoString) :
    ∀ i res, (∀ seg ∈ l, asciiLed seg) →
      lowHumpLoop (i + 1) res l = some (res ++ upperCamel l) := by
  induction l with
  | nil => intro i res _; simp [lowHumpLoop, upperCamel]
  | cons v rest ih =>
    intro i res h
    obtain ⟨b, t, hv, hb⟩ := h v (List.mem_cons_self _ _)
    subst hv
    have hrest : ∀ seg ∈ rest, asciiLed seg := fun seg hs => h seg (List.mem_cons_of_mem _ hs)
    simp only [lowHumpLoop, sliceTo1, sliceFrom1]
    rw [ih _ _ hrest, stringsToUpper_ascii b hb]
    simp [upperCamel, upperFirst]

theorem lowHumpLoop_zero_asciiLed (l : List GoString) (h : ∀ seg ∈ l, asciiLed seg) :
    lowHumpLoop 0 [] l = some (lowerCamel l) := by
  cases l with
  | nil => simp [lowHumpLoop, lowerCamel]
  | cons v rest =>
    obtain ⟨b, t, hv, hb⟩ := h v (List.mem_cons_self _ _)
    subst hv
    have hrest : ∀ seg ∈ rest, asciiLed seg := fun seg hs => h seg (List.mem_cons_of_mem _ hs)
    simp only [lowHumpLoop, sliceTo1, sliceFrom1]
    rw [lowHumpLoop_succ_asciiLed _ _ _ hrest, stringsToLower_ascii b hb]
    simp [lowerCamel, lowerFirst, upperCamel]

/-! ## Name formatting: claims -/

/-- C1: `getFormatName` with `FmtUnderlineToStartUpHump` or `FmtUnderlineToStartLowHump`
panics (slice bounds out of range) exactly on the inputs that have an empty piece
between underscores; the empty string, a leading underscore, a trailing underscore and
consecutive underscores are such inputs, so empty pieces are not skipped. -/
theorem getFormatName_hump_panics (u : UnicodeTables) :
    (∀ s, getFormatName u s FmtUnderlineToStartUpHump = none ↔ [] ∈ stringsSplit 95 s) ∧
    (∀ s, getFormatName u s FmtUnderlineToStartLowHump = none ↔ [] ∈ stringsSplit 95 s) ∧
    getFormatName u (str "") FmtUnderlineToStartUpHump = none ∧
    getFormatName u (str "") FmtUnderlineToStartLowHump = none ∧
    getFormatName u (str "user__name") FmtUnderlineToStartUpHump = none ∧
    getFormatName u (str "user__name") FmtUnderlineToStartLowHump = none ∧
    getFormatName u (str "_id") FmtUnderlineToStartUpHump = none ∧
    getFormatName u (str "id_") FmtUnderlineToStartLowHump = none ∧
    getFormatName u (str "username") FmtUnderlineToStartUpHump = some (str "Username") := by
  refine ⟨fun s => ?_, fun s => ?_, ?_, ?_, ?_, ?_, ?_, ?_, ?_⟩
  · simp [getFormatName, upHumpLoop_none_iff]
  · simp [getFormatName, lowHumpLoop_none_iff]
  all_goals rfl

/-- C2: for an identifier whose underscore-separated pieces are all non-empty and
begin with an ASCII character, `getFormatName` with `FmtUnderlineToStartUpHump` returns
the concatenation of the pieces, each with its first letter upper-cased and its rest
unchanged. -/
theorem getFormatName_upHump (u : UnicodeTables) (s : GoString)
    (h : ∀ seg ∈ stringsSplit 95 s, asciiLed seg) :
    getFormatName u s FmtUnderlineToStartUpHump = some (upperCamel (stringsSplit 95 s)) := by
  simp [getFormatName, upHumpLoop_asciiLed _ _ h]

/-- C2, on the identifiers of the test: "user_name" gives "UserName" and
"user_all_name" gives "UserAllName". -/
theorem getFormatName_upHump_witness :
    (∀ seg ∈ stringsSplit 95 (str "user_name"), asciiLed seg) ∧
    getFormatName asciiTables (str "user_name") FmtUnderlineToStartUpHump
      = some (upperCamel (stringsSplit 95 (str "user_name"))) ∧
    upperCamel (stringsSplit 95 (str "user_name")) = str "UserName" ∧
    getFormatName asciiTables (str "user_all_name") FmtUnderlineToStartUpHump
      = some (upperCamel (stringsSplit 95 (str "user_all_name"))) ∧
    upperCamel (stringsSplit 95 (str "user_all_name")) = str "UserAllName" :=
  ⟨by decide, getFormatName_upHump asciiTables (str "user_name") (by decide), by decide,
    getFormatName_upHump asciiTables (str "user_all_name") (by decide), by decide⟩

/-- C3: for an identifier whose underscore-separated pieces are all non-empty and
begin with an ASCII character, `getFormatName` with `FmtUnderlineToStartLowHump`
returns the concatenation of the pieces, the first with its first letter lower-cased,
every later one with its first letter upper-cased, all other characters unchanged. -/
theorem getFormatName_lowHump (u : UnicodeTables) (s : GoString)
    (h : ∀ seg ∈ stringsSplit 95 s, asciiLed seg) :
    getFormatName u s FmtUnderlineToStartLowHump = some (lowerCamel (stringsSplit 95 s)) := by
  simp [getFormatName, lowHumpLoop_zero_asciiLed _ h]

/-- C3, on the identifiers of the test: "user_all_name" gives "userAllName" and
"user_name" gives "userName"; an upper-case start is lower-cased. -/
theorem getFormatName_lowHump_witness :
    (∀ seg ∈ stringsSplit 95 (str "user_all_name"), asciiLed seg) ∧
    getFormatName asciiTables (str "user_all_name") FmtUnderlineToStartLowHump
      = some (lowerCamel (stringsSplit 95 (str "user_all_name"))) ∧
    lowerCamel (stringsSplit 95 (str "user_all_name")) = str "userAllName" ∧
    getFormatName asciiTables (str "user_name") FmtUnderlineToStartLowHump
      = some (lowerCamel (stringsSplit 95 (str "user_name"))) ∧
    lowerCamel (stringsSplit 95 (str "user_name")) = str "userName" ∧
    getFormatName asciiTables (str "User_name") FmtUnderlineToStartLowHump
      = some (lowerCamel (stringsSplit 95 (str "User_name"))) ∧
    lowerCamel (stringsSplit 95 (str "User_name")) = str "userName" :=
  ⟨by decide, getFormatName_lowHump asciiTables (str "user_all_name") (by decide), by decide,
    getFormatName_lowHump asciiTables (str "user_name") (by decide), by decide,
    getFormatName_lowHump asciiTables (str "User_name") (by decide), by decide⟩

/-! ## Lemmas on rune iteration -/

theorem encodeRunes_append (a b : List Nat) :
    encodeRunes (a ++ b) = encodeRunes a ++ encodeRunes b := by
  simp [encodeRunes]

theorem encodeRunes_cons (c : Nat) (cs : List Nat) :
    encodeRunes (c :: cs) = encodeRune c ++ encodeRunes cs := by
  simp [encodeRunes]

theorem rangeLoop_index_ge (s : GoString) :
    ∀ i skip, ∀ p ∈ rangeLoop i skip s, i ≤ p.1 := by
  induction s with
  | nil => intro i skip p hp; simp [rangeLoop] at hp
  | cons b rest ih =>
    intro i skip p hp
    unfold rangeLoop at hp
    split at hp
    · rcases List.mem_cons.1 hp with h | h
      · subst h; exact Nat.le_refl _
      · exact Nat.le_of_succ_le (ih _ _ p h)
    · exact Nat.le_of_succ_le (ih _ _ p hp)

theorem underlineLoop_later (u : UnicodeTables) (l : List (Nat × Nat)) :
    ∀ b pos, (∀ p ∈ l, p.1 ≠ 0) →
      underlineLoop u b l = b ++ encodeRunes (snakeFrom u (pos + 1) (l.map Prod.snd)) := by
  induction l with
  | nil => intro b pos _; simp [underlineLoop, snakeFrom, encodeRunes]
  | cons p rest ih =>
    intro b pos h
    obtain ⟨i, v⟩ := p
    have hi : i ≠ 0 := h (i, v) (List.mem_cons_self _ _)
    have hrest : ∀ p ∈ rest, p.1 ≠ 0 := fun p hp => h p (List.mem_cons_of_mem _ hp)
    simp only [underlineLoop, List.map_cons, snakeFrom, snakeChar]
    split
    · rw [ih _ (pos + 1) hrest]
      simp [hi, encodeRunes_append, encodeRunes, str, encodeRune]
    · rw [ih _ (pos + 1) hrest]
      simp [encodeRunes_append, encodeRunes]

theorem underlineLoop_rangeString (u : UnicodeTables) (s : GoString) :
    underlineLoop u [] (rangeString s) = encodeRunes (camelToSnake u (runes s)) := by
  cases s with
  | nil => simp [rangeString, rangeLoop, underlineLoop, runes, camelToSnake, snakeFrom, encodeRunes]
  | cons b rest =>
    have hrest : ∀ p ∈ rangeLoop (0 + 1) ((decodeRune (b :: rest)).2 - 1) rest, p.1 ≠ 0 :=
      fun p hp => Nat.pos_iff_ne_zero.1 (rangeLoop_index_ge rest _ _ p hp)
    simp only [rangeString, rangeLoop, runes, camelToSnake, underlineLoop, List.map_cons,
      snakeFrom, snakeChar, if_true]
    split
    · rw [underlineLoop_later u _ _ 0 hrest]
      simp [encodeRunes_append, encodeRunes]
    · rw [underlineLoop_later u _ _ 0 hrest]
      simp [encodeRunes_append, encodeRunes]

theorem encodeRune_length_pos (c : Nat) : 0 < (encodeRune c).length := by
  unfold encodeRune
  repeat' split
  all_goals simp

theorem decodeRune_encodeRune (c : Nat) (h : validRune c) (rest : GoString) :
    decodeRune (encodeRune c ++ rest) = (c, (encodeRune c).length) := by
  unfold validRune at h
  unfold encodeRune
  by_cases h1 : c < 0x80
  · simp [h1, decodeRune]
  by_cases h2 : c < 0x800
  · have a1 : ¬ (0xC0 + c / 64 < 0x80) := by omega
    have a2 : 0xC2 ≤ 0xC0 + c / 64 ∧ 0xC0 + c / 64 ≤ 0xDF := by omega
    have a3 : isCont (0x80 + c % 64) = true := by simp [isCont]; omega
    have a4 : (0xC0 + c / 64 - 0xC0) * 64 + (0x80 + c % 64 - 0x80) = c := by omega
    simp only [h1, h2, if_false, if_true, List.cons_append, List.nil_append, decodeRune, a1, a2,
      a3, a4, and_self, List.length_cons, List.length_nil]
  by_cases h3 : 0xD800 ≤ c ∧ c ≤ 0xDFFF
  · omega
  by_cases h4 : c < 0x10000
  · have a1 : ¬ (0xE0 + c / 4096 < 0x80) := by omega
    have a2 : ¬ (0xC2 ≤ 0xE0 + c / 4096 ∧ 0xE0 + c / 4096 ≤ 0xDF) := by omega
    have a3 : 0xE0 ≤ 0xE0 + c / 4096 ∧ 0xE0 + c / 4096 ≤ 0xEF := by omega
    have a4 : secondLo (0xE0 + c / 4096) ≤ 0x80 + c / 64 % 64 ∧
        0x80 + c / 64 % 64 ≤ secondHi (0xE0 + c / 4096) ∧ isCont (0x80 + c % 64) = true := by
      simp only [secondLo, secondHi, isCont]
      refine ⟨?_, ?_, ?_⟩
      · split
        · omega
        · split <;> omega
      · split
        · omega
        · split <;> omega
      · simp; omega
    have a5 : (0xE0 + c / 4096 - 0xE0) * 4096 + (0x80 + c / 64 % 64 - 0x80) * 64 +
        (0x80 + c % 64 - 0x80) = c := by omega
    simp only [h1, h2, h3, h4, if_false, if_true, List.cons_append, List.nil_append, decodeRune,
      a1, a2, a3, a4, a5, and_self, List.length_cons, List.length_nil]
  have h5 : c ≤ 0x10FFFF := by omega
  have a1 : ¬ (0xF0 + c / 262144 < 0x80) := by omega
  have a2 : ¬ (0xC2 ≤ 0xF0 + c / 262144 ∧ 0xF0 + c / 262144 ≤ 0xDF) := by omega
  have a3 : ¬ (0xE0 ≤ 0xF0 + c / 262144 ∧ 0xF0 + c / 262144 ≤ 0xEF) := by omega
  have a3b : 0xF0 ≤ 0xF0 + c / 262144 ∧ 0xF0 + c / 262144 ≤ 0xF4 := by omega
  have a4 : secondLo (0xF0 + c / 262144) ≤ 0x80 + c / 4096 % 64 ∧
      0x80 + c / 4096 % 64 ≤ secondHi (0xF0 + c / 262144) ∧
      isCont (0x80 + c / 64 % 64) = true ∧ isCont (0x80 + c % 64) = true := by
    simp only [secondLo, secondHi, isCont]
    refine ⟨?_, ?_, ?_, ?_⟩
    · split
      · omega
      · split <;> omega
    · split
      · omega
      · split <;> omega
    · simp; omega
    · simp; omega
  have a5 : (0xF0 + c / 262144 - 0xF0) * 262144 + (0x80 + c / 4096 % 64 - 0x80) * 4096 +
      (0x80 + c / 64 % 64 - 0x80) * 64 + (0x80 + c % 64 - 0x80) = c := by omega
  simp only [h1, h2, h3, h4, h5, if_false, if_true, List.cons_append, List.nil_append, decodeRune,
    a1, a2, a3, a3b, a4, a5, and_self, List.length_cons, List.length_nil]

theorem rangeLoop_skip (pre : GoString) :
    ∀ i rest, rangeLoop i pre.length (pre ++ rest) = rangeLoop (i + pre.length) 0 rest := by
  induction pre with
  | nil => intro i rest; simp
  | cons b t ih =>
    intro i rest
    show rangeLoop i (t.length + 1) (b :: (t ++ rest)) = _
    rw [rangeLoop]
    simp only [Nat.add_one_ne_zero, if_false, Nat.add_sub_cancel]
    rw [ih]
    congr 1
    simp only [List.length_cons]
    omega

theorem rangeLoop_encodeRune (c : Nat) (h : validRune c) (i : Nat) (rest : GoString) :
    rangeLoop i 0 (encodeRune c ++ rest) =
      (i, c) :: rangeLoop (i + (encodeRune c).length) 0 rest := by
  have hd := decodeRune_encodeRune c h rest
  cases he : encodeRune c with
  | nil => have := encodeRune_length_pos c; rw [he] at this; simp at this
  | cons b t =>
    rw [he] at hd
    simp only [List.cons_append] at hd ⊢
    simp only [rangeLoop, if_true, hd, List.length_cons, Nat.add_sub_cancel]
    rw [rangeLoop_skip]
    congr 2
    omega

theorem runes_encodeRunes_from (cs : List Nat) (h : ∀ c ∈ cs, validRune c) :
    ∀ i, (rangeLoop i 0 (encodeRunes cs)).map Prod.snd = cs := by
  induction cs with
  | nil => intro i; simp [encodeRunes, rangeLoop]
  | cons c rest ih =>
    intro i
    rw [encodeRunes_cons, rangeLoop_encodeRune c (h c (List.mem_cons_self _ _))]
    simp [ih (fun c hc => h c (List.mem_cons_of_mem _ hc))]

theorem runes_encodeRunes (cs : List Nat) (h : ∀ c ∈ cs, validRune c) :
    runes (encodeRunes cs) = cs :=
  runes_encodeRunes_from cs h 0

/-- C4: `getFormatName` with `FmtUnderline` scans the string character by character:
an upper-case letter becomes its lower-case form, preceded by an underscore unless it
is at position 0, and every other character is copied.  The characters of a string are
the runes that Go's `range` reads; for a string that is the UTF-8 encoding of a
sequence of characters they are that sequence, so that the copied characters keep
their bytes.  "PlayerInfo" gives "player_info". -/
theorem getFormatName_underline (u : UnicodeTables) :
    (∀ s, getFormatName u s FmtUnderline = some (encodeRunes (camelToSnake u (runes s)))) ∧
    (∀ cs, (∀ c ∈ cs, validRune c) →
      getFormatName u (encodeRunes cs) FmtUnderline = some (encodeRunes (camelToSnake u cs))) ∧
    getFormatName u (str "PlayerInfo") FmtUnderline = some (str "player_info") := by
  have h1 : ∀ s, getFormatName u s FmtUnderline
      = some (encodeRunes (camelToSnake u (runes s))) := by
    intro s
    simp [getFormatName, underlineLoop_rangeString]
  refine ⟨h1, fun cs hcs => ?_, ?_⟩
  · rw [h1, runes_encodeRunes cs hcs]
  · rw [h1]; rfl

/-- C4, on the characters of "PlayerInfo". -/
theorem getFormatName_underline_witness :
    (∀ c ∈ [80, 108, 97, 121, 101, 114, 73, 110, 102, 111], validRune c) ∧
    getFormatName asciiTables (encodeRunes [80, 108, 97, 121, 101, 114, 73, 110, 102, 111])
        FmtUnderline
      = some (encodeRunes (camelToSnake asciiTables
          [80, 108, 97, 121, 101, 114, 73, 110, 102, 111])) ∧
    encodeRunes [80, 108, 97, 121, 101, 114, 73, 110, 102, 111] = str "PlayerInfo" ∧
    encodeRunes (camelToSnake asciiTables [80, 108, 97, 121, 101, 114, 73, 110, 102, 111])
      = str "player_info" :=
  ⟨by decide,
    (getFormatName_underline asciiTables).2.1 [80, 108, 97, 121, 101, 114, 73, 110, 102, 111]
      (by decide),
    by decide, by decide⟩

/-- C5: `getFormatName` with `FmtDefault` returns its input unchanged, the empty string
included. -/
theorem getFormatName_default (u : UnicodeTables) (x : GoString) :
    getFormatName u x FmtDefault = some x := by
  simp [getFormatName]

/-! ## Type mapping: claims -/

theorem mapGet_of_not_mem {V : Type} (m : List (GoString × V)) (k : GoString)
    (h : k ∉ m.map Prod.fst) : mapGet m k = none := by
  induction m with
  | nil => rfl
  | cons p rest ih =>
    obtain ⟨k1, v1⟩ := p
    simp only [List.map_cons, List.mem_cons, not_or] at h
    simp only [mapGet]
    rw [if_neg (fun e => h.1 e.symm)]
    exact ih h.2

theorem mapGet_of_mem {V : Type} (m : List (GoString × V)) (hn : (m.map Prod.fst).Nodup)
    (k : GoString) (v : V) (h : (k, v) ∈ m) : mapGet m k = some v := by
  induction m with
  | nil => simp at h
  | cons p rest ih =>
    obtain ⟨k1, v1⟩ := p
    simp only [List.map_cons, List.nodup_cons] at hn
    simp only [mapGet]
    rcases List.mem_cons.1 h with e | e
    · cases e; simp
    · have hk : k ∈ rest.map Prod.fst := List.mem_map.2 ⟨(k, v), e, rfl⟩
      have hne : k1 ≠ k := fun e1 => hn.1 (e1 ▸ hk)
      rw [if_neg hne]
      exact ih hn.2 e

theorem types_keys_nodup : (types.map Prod.fst).Nodup := by decide

/-- C6: `getColumnGoType` is a total function of its input: for a string that is not
a key of the table `types` the result is "string", and for a key of the table the
result is the entry of that key. -/
theorem getColumnGoType_lookup (dbType : GoString) :
    (dbType ∉ types.map Prod.fst → getColumnGoType dbType = str "string") ∧
    (∀ res, (dbType, res) ∈ types → getColumnGoType dbType = res) := by
  constructor
  · intro h
    simp [getColumnGoType, mapGet_of_not_mem types dbType h]
  · intro res h
    simp [getColumnGoType, mapGet_of_mem types types_keys_nodup dbType res h]

/-- C6, on the unknown type name "json" and on the key "bigint". -/
theorem getColumnGoType_lookup_witness :
    str "json" ∉ types.map Prod.fst ∧ getColumnGoType (str "json") = str "string" ∧
    (str "bigint", str "int64") ∈ types ∧ getColumnGoType (str "bigint") = str "int64" :=
  ⟨by decide, (getColumnGoType_lookup (str "json")).1 (by decide), by decide,
    (getColumnGoType_lookup (str "bigint")).2 (str "int64") (by decide)⟩

/-! ## Rendering: lemmas -/

theorem tagPairs_length (u : UnicodeTables) (name : GoString) (tags : List Tag) :
    ∀ ps, tagPairs u name tags = some ps → ps.length = tags.length := by
  induction tags with
  | nil => intro ps h; simp [tagPairs] at h; simp [← h]
  | cons tag rest ih =>
    intro ps h
    unfold tagPairs at h
    split at h
    · next v qs _ hq =>
      cases h
      simp [ih qs hq]
    · cases h

theorem intercalate_cons_cons (sep p q : GoString) (ps : List GoString) :
    List.intercalate sep (p :: q :: ps) = p ++ sep ++ List.intercalate sep (q :: ps) := by
  simp [List.intercalate, List.intersperse]

theorem tagLoop_eq (u : UnicodeTables) (name : GoString) (n : Nat) (tags : List Tag) :
    ∀ i acc, i + tags.length = n →
      tagLoop u name n i acc tags
        = (tagPairs u name tags).map fun ps => acc ++ List.intercalate [32] ps := by
  induction tags with
  | nil => intro i acc _; simp [tagLoop, tagPairs, List.intercalate]
  | cons tag rest ih =>
    intro i acc hn
    simp only [List.length_cons] at hn
    unfold tagLoop tagPairs
    cases hv : getFormatName u name tag.Mode with
    | none => simp
    | some v =>
      simp only []
      have hi := ih (i + 1)
      cases rest with
      | nil =>
        have : i = n - 1 := by simp at hn; omega
        simp [this, tagLoop, tagPairs, List.intercalate, tagPair]
      | cons tag2 rest2 =>
        have hne : ¬ (i = n - 1) := by simp at hn; omega
        rw [if_neg hne, hi _ (by simp at hn ⊢; omega)]
        cases hps : tagPairs u name (tag2 :: rest2) with
        | none => simp
        | some ps =>
          have hl := tagPairs_length u name _ ps hps
          cases ps with
          | nil => simp at hl
          | cons q qs =>
            simp only [Option.map_some', intercalate_cons_cons]
            have : str "\" " = str "\"" ++ [32] := by decide
            simp [tagPair, this]

theorem genColumn_need (u : UnicodeTables) (ds : dbStruct) (st st1 : genState) (c : column)
    (h : genColumn u ds st c = some st1) :
    st1.needImportTimePkg = (st.needImportTimePkg || (ds.singleFile && isTimeColumn c)) := by
  unfold genColumn at h
  split at h
  · cases h
  · split at h
    · cases h
    · cases h
      simp only [isTimeColumn]
      cases hs : ds.singleFile <;> cases hn : st.needImportTimePkg <;>
        by_cases ht : getColumnGoType c.Typ = str "time.Time" <;>
        by_cases hi : st.importTimePkgStr = [] <;> simp [hs, hn, ht, hi]

theorem genColumns_need (u : UnicodeTables) (ds : dbStruct) (columns : List column) :
    ∀ st st1, genColumns u ds st columns = some st1 →
      st1.needImportTimePkg
        = (st.needImportTimePkg || (ds.singleFile && columns.any isTimeColumn)) := by
  induction columns with
  | nil => intro st st1 h; simp [genColumns] at h; simp [← h]
  | cons c rest ih =>
    intro st st1 h
    unfold genColumns at h
    split at h
    · cases h
    · next st2 h2 =>
      rw [ih st2 st1 h, genColumn_need u ds st st2 c h2]
      simp only [List.any_cons]
      cases ds.singleFile <;> cases st.needImportTimePkg <;> cases isTimeColumn c <;>
        cases rest.any isTimeColumn <;> rfl

theorem genStruct_some (u : UnicodeTables) (ds : dbStruct) (table : GoString)
    (columns : List column) (res : genStructRes) (h : genStruct u ds table columns = some res) :
    ∃ structName st m,
      getFormatName u table ds.structNameFmt = some structName ∧
      genColumns u ds
        ⟨genHeader ds ++ (str "type " ++ structName ++ str " struct \x7b\n"), [], false⟩ columns
          = some st ∧
      genMethod ds structName table = some m ∧
      res = { structName := structName,
              content :=
                stringsReplace1 importTimePkgMark st.importTimePkgStr
                  (st.buffer ++ str "\x7d\n\n" ++ m),
              err := none,
              needImportTimePkg := st.needImportTimePkg } := by
  unfold genStruct at h
  cases h1 : getFormatName u table ds.structNameFmt with
  | none => rw [h1] at h; cases h
  | some structName =>
    rw [h1] at h
    dsimp only at h
    cases h2 : genColumns u ds
        ⟨genHeader ds ++ (str "type " ++ structName ++ str " struct \x7b\n"), [], false⟩
        columns with
    | none => rw [h2] at h; cases h
    | some st =>
      rw [h2] at h
      dsimp only at h
      cases h3 : genMethod ds structName table with
      | none => rw [h3] at h; cases h
      | some m =>
        rw [h3] at h
        exact ⟨structName, st, m, rfl, h2, h3, (Option.some.inj h).symm⟩

theorem genStruct_need (u : UnicodeTables) (ds : dbStruct) (table : GoString)
    (columns : List column) (res : genStructRes) (h : genStruct u ds table columns = some res) :
    res.needImportTimePkg = (ds.singleFile && columns.any isTimeColumn) := by
  obtain ⟨structName, st, m, _, h2, _, hres⟩ := genStruct_some u ds table columns res h
  rw [hres]
  simpa using genColumns_need u ds columns _ st h2

/-! ## Rendering: claims -/

/-- C9, as the code has it: the flag `needImportTimePkg` of a result of `genStruct` is
true exactly when the configuration is in single-file mode and at least one column
maps to `time.Time`; in multi-file mode the flag is false for every table. -/
theorem genStruct_needImportTimePkg (u : UnicodeTables) (ds : dbStruct) (table : GoString)
    (columns : List column) (res : genStructRes)
    (h : genStruct u ds table columns = some res) :
    (res.needImportTimePkg = true ↔
      ds.singleFile = true ∧ ∃ c ∈ columns, getColumnGoType c.Typ = str "time.Time") ∧
    (ds.singleFile = false → res.needImportTimePkg = false) := by
  rw [genStruct_need u ds table columns res h]
  constructor
  · simp [isTimeColumn]
  · intro hs; simp [hs]

/-- C9 fails in multi-file mode: for the table `user_group` of the scenario, whose
column `created_at` maps to `time.Time`, `genStruct` returns a result whose flag
`needImportTimePkg` is false. -/
theorem genStruct_needImportTimePkg_multiFile :
    scenarioDs.singleFile = false ∧
    (∃ c ∈ userGroupColumns, getColumnGoType c.Typ = str "time.Time") ∧
    (genStruct asciiTables scenarioDs (str "user_group") userGroupColumns).map
      (fun res => res.needImportTimePkg) = some false := by
  decide

/-- C9, on the table `user_group` of the scenario in single-file mode. -/
theorem genStruct_needImportTimePkg_witness :
    ∃ res,
      genStruct asciiTables { scenarioDs with singleFile := true } (str "user_group")
        userGroupColumns = some res ∧
      res.needImportTimePkg = true ∧
      ((res.needImportTimePkg = true ↔
        ({ scenarioDs with singleFile := true } : dbStruct).singleFile = true ∧
          ∃ c ∈ userGroupColumns, getColumnGoType c.Typ = str "time.Time") ∧
       (({ scenarioDs with singleFile := true } : dbStruct).singleFile = false →
          res.needImportTimePkg = false)) :=
  match h : genStruct asciiTables { scenarioDs with singleFile := true } (str "user_group")
      userGroupColumns with
  | some res =>
    ⟨res, rfl,
      ((genStruct_needImportTimePkg asciiTables _ _ _ res h).1).2 ⟨rfl, by decide⟩,
      genStruct_needImportTimePkg asciiTables _ _ _ res h⟩
  | none => absurd h (by decide)

set_option maxRecDepth 100000 in
/-- C7: `genStruct` gives no result (it panics in `getFormatName`) for the non-empty
table name `user__group`, and for a table with the non-empty column name `_id`, under
the camel-case modes; for the table `user_group` of the scenario it renders the type
`UserGroup` with one field line per column in column order. -/
theorem genStruct_panics_on_empty_piece :
    genStruct asciiTables scenarioDs (str "user__group") userGroupColumns = none ∧
    genStruct asciiTables scenarioDs (str "user_group")
      [⟨str "_id", str "bigint", str "NO", str "user_group", []⟩] = none ∧
    genStruct asciiTables { scenarioDs with singleFile := true } (str "user_group")
      userGroupColumns
      = some
        { structName := str "UserGroup",
          content := str ("type UserGroup struct \x7b\n" ++
            "\tId int64 `json:\"id\"`\n" ++
            "\tUserName string `json:\"userName\"`\n" ++
            "\tCreatedAt time.Time `json:\"createdAt\"`\n" ++
            "\x7d\n\n" ++
            "func (u *UserGroup) TableName() string \x7b\n\treturn \"user_group\"\n\x7d"),
          err := none,
          needImportTimePkg := true } := by
  refine ⟨by decide, by decide, by decide⟩

/-! ## Generation: lemmas -/

theorem mapSet_mem_keys {V : Type} (m : List (GoString × V)) (k : GoString) (v : V)
    (x : GoString) :
    x ∈ (mapSet m k v).map Prod.fst ↔ x = k ∨ x ∈ m.map Prod.fst := by
  induction m with
  | nil => simp [mapSet]
  | cons p rest ih =>
    obtain ⟨k1, v1⟩ := p
    unfold mapSet
    split
    · next h => subst h; simp
    · simp only [List.map_cons, List.mem_cons, ih]
      tauto

theorem mapSet_keys_nodup {V : Type} (m : List (GoString × V)) (k : GoString) (v : V)
    (h : (m.map Prod.fst).Nodup) : ((mapSet m k v).map Prod.fst).Nodup := by
  induction m with
  | nil => simp [mapSet]
  | cons p rest ih =>
    obtain ⟨k1, v1⟩ := p
    simp only [List.map_cons, List.nodup_cons] at h
    unfold mapSet
    split
    · simpa using h
    · next hne =>
      simp only [List.map_cons, List.nodup_cons, mapSet_mem_keys]
      refine ⟨?_, ih h.2⟩
      rintro (e | e)
      · exact hne e
      · exact h.1 e

theorem groupRows_keys_nodup (rows : List (Except GoError column)) :
    ∀ tables res, (tables.map Prod.fst).Nodup → groupRows tables rows = Except.ok res →
      (res.map Prod.fst).Nodup := by
  induction rows with
  | nil => intro tables res hn h; simp only [groupRows] at h; cases h; exact hn
  | cons r rest ih =>
    intro tables res hn h
    cases r with
    | error e => simp [groupRows] at h
    | ok c =>
      simp only [groupRows] at h
      refine ih _ res (mapSet_keys_nodup _ _ _ ?_) h
      split
      · exact mapSet_keys_nodup _ _ _ hn
      · exact hn

theorem collectLoop_mem_keys (results : List genStructRes) :
    ∀ (writes : List (GoString × GoString)) (need : Bool) (x : GoString),
      x ∈ (collectLoop writes need results).1.map Prod.fst ↔
        x ∈ writes.map Prod.fst ∨ x ∈ results.map fun r => r.structName := by
  induction results with
  | nil => intro writes need x; simp [collectLoop]
  | cons r rest ih =>
    intro writes need x
    simp only [collectLoop, ih, mapSet_mem_keys, List.map_cons, List.mem_cons]
    tauto

theorem genAll_structNames (u : UnicodeTables) (ds : dbStruct)
    (tables : List (GoString × List column)) :
    ∀ results, genAll u ds tables = some results →
      (results.map fun r => some r.structName)
        = tables.map fun t => getFormatName u t.1 ds.structNameFmt := by
  induction tables with
  | nil => intro results h; simp only [genAll, Option.some.injEq] at h; subst h; rfl
  | cons t rest ih =>
    intro results h
    obtain ⟨table, columns⟩ := t
    simp only [genAll] at h
    split at h
    · next r rs hr hrs =>
      cases h
      obtain ⟨structName, st, m, h1, _, _, hres⟩ := genStruct_some u ds table columns r hr
      simp [ih rs hrs, hres, h1]
    · cases h

theorem writeMany_ds (u : UnicodeTables) (env : Env) (ds : dbStruct)
    (writes : List (GoString × GoString)) :
    ∀ written, (writeMany u env ds written writes).ds = ds := by
  induction writes with
  | nil => intro written; rfl
  | cons w rest ih =>
    intro written
    obtain ⟨name, content⟩ := w
    simp only [writeMany]
    split
    · rfl
    · split
      · rfl
      · exact ih _

theorem writeMany_paths (u : UnicodeTables) (env : Env) (ds : dbStruct)
    (writes : List (GoString × GoString)) :
    ∀ written, (writeMany u env ds written writes).exit = Exit.returned none →
      ((writeMany u env ds written writes).written.map fun w => some w.1)
        = (written.map fun w => some w.1) ++
          writes.map fun w => (getFormatName u w.1 ds.fileNameFmt).map (pathOf ds) := by
  induction writes with
  | nil => intro written _; simp [writeMany]
  | cons w rest ih =>
    intro written h
    obtain ⟨name, content⟩ := w
    unfold writeMany writeManyFile at h
    unfold writeMany writeManyFile
    cases hf : getFormatName u name ds.fileNameFmt with
    | none => rw [hf] at h; cases h
    | some filename =>
      rw [hf] at h
      dsimp only at h ⊢
      cases hw : env.writeFile (pathOf ds filename) content with
      | some e => rw [hw] at h; cases h
      | none =>
        rw [hw] at h
        dsimp only at h ⊢
        rw [ih _ h]
        simp [hf]

theorem pathOf_injective (ds : dbStruct) : Function.Injective (pathOf ds) := by
  intro a b h
  simp only [pathOf, List.append_assoc] at h
  have h1 := List.append_cancel_left h
  have h2 := List.append_cancel_left h1
  exact List.append_cancel_right h2

theorem connectDB_fields (env : Env) (ds : dbStruct) :
    (connectDB env ds).tables = ds.tables ∧ (connectDB env ds).singleFile = ds.singleFile ∧
    (connectDB env ds).structNameFmt = ds.structNameFmt ∧
    (connectDB env ds).fileNameFmt = ds.fileNameFmt := by
  unfold connectDB
  split
  · split <;> simp
  · simp

theorem addFlagTags_fields (ds : dbStruct) :
    (addFlagTags ds).tables = ds.tables ∧ (addFlagTags ds).singleFile = ds.singleFile ∧
    (addFlagTags ds).structNameFmt = ds.structNameFmt ∧
    (addFlagTags ds).fileNameFmt = ds.fileNameFmt := by
  by_cases h1 : ds.tagJson = true <;> by_cases h2 : ds.tagOrm = true <;>
    simp [addFlagTags, AppendTag, h1, h2]

theorem defaultModelPath_fields (env : Env) (ds ds3 : dbStruct)
    (h : defaultModelPath env ds = Except.ok ds3) :
    ds3.singleFile = ds.singleFile ∧ ds3.structNameFmt = ds.structNameFmt ∧
    ds3.fileNameFmt = ds.fileNameFmt := by
  unfold defaultModelPath at h
  split at h
  · split at h
    · cases h
    · cases h; simp
  · cases h; simp

theorem getTables_congr (env : Env) (ds1 ds2 : dbStruct) (h : ds1.tables = ds2.tables) :
    getTables env ds1 = getTables env ds2 := by
  simp [getTables, sqlString, h]

theorem getTables_keys_nodup (env : Env) (ds : dbStruct)
    (tables : List (GoString × List column)) (h : getTables env ds = some (Except.ok tables)) :
    (tables.map Prod.fst).Nodup := by
  unfold getTables at h
  split at h
  · cases h
  · split at h
    · cases h
    · exact groupRows_keys_nodup _ [] tables (by simp) (Option.some.inj h)

theorem Generate_multiFile_ok (u : UnicodeTables) (env : Env) (ds : dbStruct)
    (tables : List (GoString × List column))
    (hm : ds.singleFile = false) (hok : (Generate u env ds).exit = Exit.returned none)
    (ht : getTables env ds = some (Except.ok tables)) :
    ∃ results ds3,
      genAll u (addFlagTags (connectDB env ds)) tables = some results ∧
      ds3.fileNameFmt = ds.fileNameFmt ∧
      Generate u env ds = writeMany u env ds3 [] (collectLoop [] false results).1 := by
  have hc := connectDB_fields env ds
  have ha := addFlagTags_fields (connectDB env ds)
  have ht2 : getTables env (addFlagTags (connectDB env ds)) = some (Except.ok tables) := by
    rw [getTables_congr env _ ds (by rw [ha.1, hc.1]), ht]
  unfold Generate at hok ⊢
  split at hok
  · cases hok
  · next hdsn =>
    rw [if_neg hdsn]
    dsimp only at hok ⊢
    cases he : (connectDB env ds).err with
    | some e => rw [he] at hok; cases hok
    | none =>
      rw [he] at hok
      dsimp only at hok ⊢
      rw [ht2] at hok ⊢
      dsimp only at hok ⊢
      cases hg : genAll u (addFlagTags (connectDB env ds)) tables with
      | none => rw [hg] at hok; cases hok
      | some results =>
        rw [hg] at hok
        dsimp only at hok ⊢
        cases hd : defaultModelPath env (addFlagTags (connectDB env ds)) with
        | error e => rw [hd] at hok; cases hok
        | ok ds3 =>
          rw [hd] at hok
          dsimp only at hok ⊢
          have hf := defaultModelPath_fields env _ ds3 hd
          have hs : ds3.singleFile = false := by rw [hf.1, ha.2.1, hc.2.1, hm]
          unfold output at hok ⊢
          simp only [hs, Bool.false_eq_true, if_false] at hok ⊢
          cases hmk : env.mkdirAll ds3.modelPath with
          | some e => rw [hmk] at hok; cases hok
          | none =>
            refine ⟨results, ds3, rfl, by rw [hf.2.2, ha.2.2.2, hc.2.2.2], rfl⟩

theorem dedup_length_map_injective {α β : Type} [DecidableEq α] [DecidableEq β] (f : α → β)
    (hf : Function.Injective f) (l : List α) : (l.map f).dedup.length = l.dedup.length := by
  have e : (l.map f).toFinset = l.toFinset.image f := by ext x; simp
  rw [← List.card_toFinset, ← List.card_toFinset, e, Finset.card_image_of_injective _ hf]

theorem dedup_length_map_of_mem_iff {α β : Type} [DecidableEq α] [DecidableEq β] (f : α → β)
    (l1 l2 : List α) (h : ∀ x, x ∈ l1 ↔ x ∈ l2) :
    (l1.map f).dedup.length = (l2.map f).dedup.length := by
  have e : (l1.map f).toFinset = (l2.map f).toFinset := by ext x; simp [h]
  rw [← List.card_toFinset, ← List.card_toFinset, e]

/-! ## Generation: claims -/

/-- C10, as the code has it: in multi-file mode, when `Generate` returns nil, the
number of files it writes is the number of distinct file names of the tables of the
fetched schema, a table's file name being its struct name formatted with the file-name
mode; it is at most the number of tables (whose names are distinct), and equals it
when no two tables have the same file name. -/
theorem Generate_multiFile_fileCount (u : UnicodeTables) (env : Env) (ds : dbStruct)
    (tables : List (GoString × List column))
    (hm : ds.singleFile = false) (hok : (Generate u env ds).exit = Exit.returned none)
    (ht : getTables env ds = some (Except.ok tables)) :
    (tables.map Prod.fst).Nodup ∧
    fileCount (Generate u env ds).written
      = (tables.map fun t => fileNameOf u ds t.1).dedup.length ∧
    fileCount (Generate u env ds).written ≤ tables.length ∧
    ((tables.map fun t => fileNameOf u ds t.1).Nodup →
      fileCount (Generate u env ds).written = tables.length) := by
  have hnodup := getTables_keys_nodup env ds tables ht
  obtain ⟨results, ds3, hg, hfmt, hgen⟩ := Generate_multiFile_ok u env ds tables hm hok ht
  have hc := connectDB_fields env ds
  have ha := addFlagTags_fields (connectDB env ds)
  have hnames := genAll_structNames u _ tables results hg
  rw [ha.2.2.1, hc.2.2.1] at hnames
  have hpaths := writeMany_paths u env ds3 (collectLoop [] false results).1 []
    (by rw [← hgen]; exact hok)
  rw [← hgen] at hpaths
  simp only [List.map_nil, List.nil_append, hfmt] at hpaths
  have hfile : (tables.map fun t => fileNameOf u ds t.1)
      = (results.map fun r => r.structName).map fun k => getFormatName u k ds.fileNameFmt := by
    have : (tables.map fun t => fileNameOf u ds t.1)
        = (tables.map fun t => getFormatName u t.1 ds.structNameFmt).map
            fun o => o.bind fun k => getFormatName u k ds.fileNameFmt := by
      rw [List.map_map]
      apply List.map_congr_left
      intro t _
      simp only [fileNameOf, Function.comp]
      cases getFormatName u t.1 ds.structNameFmt <;> rfl
    rw [this, ← hnames]
    simp [List.map_map, Function.comp]
  have hcount : fileCount (Generate u env ds).written
      = (tables.map fun t => fileNameOf u ds t.1).dedup.length := by
    unfold fileCount
    have e1 : ((Generate u env ds).written.map Prod.fst).dedup.length
        = (((Generate u env ds).written.map Prod.fst).map some).dedup.length :=
      (dedup_length_map_injective some (Option.some_injective _) _).symm
    have e2 : ((Generate u env ds).written.map Prod.fst).map some
        = (((collectLoop [] false results).1.map Prod.fst).map
            fun k => getFormatName u k ds.fileNameFmt).map (Option.map (pathOf ds3)) := by
      simp only [List.map_map, Function.comp] at hpaths ⊢
      exact hpaths
    rw [e1, e2, dedup_length_map_injective _ (Option.map_injective (pathOf_injective ds3)),
      hfile]
    apply dedup_length_map_of_mem_iff
    intro x
    rw [collectLoop_mem_keys]
    simp
  refine ⟨hnodup, hcount, ?_, ?_⟩
  · rw [hcount]
    calc (tables.map fun t => fileNameOf u ds t.1).dedup.length
        ≤ (tables.map fun t => fileNameOf u ds t.1).length :=
          List.Sublist.length_le (List.dedup_sublist _)
      _ = tables.length := List.length_map _ _
  · intro hn
    rw [hcount, List.Nodup.dedup hn, List.length_map]

set_option maxRecDepth 100000 in
/-- C10 fails when two tables get the same struct name: with the struct-name mode
`FmtUnderlineToStartUpHump` the tables `UserGroup` and `user_group` both render as
`UserGroup`; `Generate` returns nil, the fetched schema has two tables, and one file
is written. -/
theorem Generate_multiFile_collision :
    scenarioDs.singleFile = false ∧
    (Generate asciiTables (scenarioEnv twoTableRows) scenarioDs).exit = Exit.returned none ∧
    getTables (scenarioEnv twoTableRows) scenarioDs
      = some (Except.ok
          [ (str "UserGroup", [⟨str "id", str "bigint", str "NO", str "UserGroup", []⟩]),
            (str "user_group", [⟨str "id", str "bigint", str "NO", str "user_group", []⟩]) ]) ∧
    fileCount (Generate asciiTables (scenarioEnv twoTableRows) scenarioDs).written = 1 :=
  ⟨by decide, by decide, rfl, by decide⟩

set_option maxRecDepth 100000 in
/-- C10, on the scenario with the tables `user_group` and `orders`: two tables, two
files. -/
theorem Generate_multiFile_fileCount_witness :
    scenarioDs.singleFile = false ∧
    (Generate asciiTables (scenarioEnv scenarioRows) scenarioDs).exit = Exit.returned none ∧
    getTables (scenarioEnv scenarioRows) scenarioDs = some (Except.ok scenarioTables) ∧
    ((scenarioTables.map Prod.fst).Nodup ∧
      fileCount (Generate asciiTables (scenarioEnv scenarioRows) scenarioDs).written
        = (scenarioTables.map fun t => fileNameOf asciiTables scenarioDs t.1).dedup.length ∧
      fileCount (Generate asciiTables (scenarioEnv scenarioRows) scenarioDs).written
        ≤ scenarioTables.length ∧
      ((scenarioTables.map fun t => fileNameOf asciiTables scenarioDs t.1).Nodup →
        fileCount (Generate asciiTables (scenarioEnv scenarioRows) scenarioDs).written
          = scenarioTables.length)) ∧
    fileCount (Generate asciiTables (scenarioEnv scenarioRows) scenarioDs).written = 2 :=
  ⟨by decide, by decide, rfl,
    Generate_multiFile_fileCount asciiTables (scenarioEnv scenarioRows) scenarioDs scenarioTables
      (by decide) (by decide) rfl,
    by decide⟩

/-! ## Rendering: the text of a declaration -/

theorem genTagString_tagPairs (u : UnicodeTables) (ds : dbStruct) (c : column) :
    genTagString u ds c = (tagPairs u c.Name ds.tags).map tagClause := by
  unfold genTagString
  cases ht : ds.tags with
  | nil => simp [tagPairs, tagClause]
  | cons tag rest =>
    rw [tagLoop_eq u c.Name _ _ 0 [96] (by simp)]
    cases hps : tagPairs u c.Name (tag :: rest) with
    | none => simp
    | some ps =>
      have hl := tagPairs_length u c.Name _ ps hps
      have hne : ps ≠ [] := by intro e; simp [e] at hl
      simp [tagClause, hne]

theorem genColumn_render (u : UnicodeTables) (ds : dbStruct) (st st1 : genState) (c : column)
    (h : genColumn u ds st c = some st1) :
    ∃ line, fieldLine u ds c.Name c.Typ = some line ∧
      st1.buffer = st.buffer ++ (commentLine c.Comment ++ line) ∧
      st1.importTimePkgStr =
        (if st.importTimePkgStr = [] ∧ isTimeColumn c = true ∧ ds.singleFile = false then
          str "import \"time\"\n\n" else st.importTimePkgStr) := by
  unfold genColumn at h
  cases hn : getFormatName u c.Name ds.fieldNameFmt with
  | none => rw [hn] at h; cases h
  | some columnName =>
    rw [hn] at h
    dsimp only at h
    rw [genTagString_tagPairs] at h
    cases hp : tagPairs u c.Name ds.tags with
    | none => rw [hp] at h; cases h
    | some pairs =>
      rw [hp] at h
      simp only [Option.map_some', Option.some.injEq] at h
      refine ⟨str "\t" ++ columnName ++ str " " ++ getColumnGoType c.Typ ++ str " " ++
        tagClause pairs ++ str "\n", by simp [fieldLine, hn, hp], ?_, ?_⟩
      · rw [← h]
        by_cases hc : c.Comment = [] <;>
          by_cases h1 : st.importTimePkgStr = [] ∧ getColumnGoType c.Typ = str "time.Time" ∧
            ds.singleFile = false <;>
          by_cases h2 : st.needImportTimePkg = false ∧ ds.singleFile = true ∧
            getColumnGoType c.Typ = str "time.Time" <;>
          simp [hc, h1, h2, commentLine, List.append_assoc]
      · rw [← h]
        by_cases h1 : st.importTimePkgStr = [] ∧ getColumnGoType c.Typ = str "time.Time" ∧
            ds.singleFile = false
        · have h1' : st.importTimePkgStr = [] ∧ isTimeColumn c = true ∧ ds.singleFile = false := by
            simpa [isTimeColumn] using h1
          simp [h1, h1']
        · have h1' : ¬ (st.importTimePkgStr = [] ∧ isTimeColumn c = true ∧
              ds.singleFile = false) := by
            simpa [isTimeColumn] using h1
          by_cases h2 : st.needImportTimePkg = false ∧ ds.singleFile = true ∧
              getColumnGoType c.Typ = str "time.Time" <;> simp [h1, h1', h2]

theorem genColumns_render (u : UnicodeTables) (ds : dbStruct) (columns : List column) :
    ∀ st st1, genColumns u ds st columns = some st1 →
      ∃ body, columnsText u ds columns = some body ∧
        st1.buffer = st.buffer ++ body ∧
        st1.importTimePkgStr =
          (if st.importTimePkgStr = [] then importClause ds columns
            else st.importTimePkgStr) := by
  induction columns with
  | nil =>
    intro st st1 h
    simp only [genColumns, Option.some.injEq] at h
    subst h
    refine ⟨[], rfl, by simp, ?_⟩
    by_cases e : st.importTimePkgStr = [] <;> simp [e, importClause]
  | cons c rest ih =>
    intro st st1 h
    unfold genColumns at h
    cases h1 : genColumn u ds st c with
    | none => rw [h1] at h; cases h
    | some st2 =>
      rw [h1] at h
      dsimp only at h
      obtain ⟨line, hl, hb, hi⟩ := genColumn_render u ds st st2 c h1
      obtain ⟨body, hbody, hb2, hi2⟩ := ih st2 st1 h
      refine ⟨commentLine c.Comment ++ line ++ body, by simp [columnsText, hl, hbody], ?_, ?_⟩
      · rw [hb2, hb]; simp [List.append_assoc]
      · rw [hi2, hi]
        by_cases e : st.importTimePkgStr = []
        · by_cases t : isTimeColumn c = true <;> by_cases s : ds.singleFile = false <;>
            simp [e, t, s, importClause, str, encodeRune]
        · simp [e]

theorem genMethod_accessorMethod (ds : dbStruct) (structName table m : GoString)
    (h : genMethod ds structName table = some m) : m = accessorMethod ds structName table := by
  unfold genMethod at h
  unfold accessorMethod
  by_cases hc : ds.genTableNameFunc = true ∧ ds.genTableName ≠ []
  · rw [if_pos hc] at h
    rw [if_pos hc]
    cases structName with
    | nil => simp [sliceTo1] at h
    | cons b t =>
      simp only [sliceTo1, Option.some.injEq] at h
      rw [← h]
      simp
  · rw [if_neg hc] at h
    rw [if_neg hc]
    exact (Option.some.inj h).symm

theorem genStruct_render (u : UnicodeTables) (ds : dbStruct) (table : GoString)
    (columns : List column) (res : genStructRes) (h : genStruct u ds table columns = some res) :
    ∃ body,
      getFormatName u table ds.structNameFmt = some res.structName ∧
      columnsText u ds columns = some body ∧
      res.content =
        stringsReplace1 importTimePkgMark (importClause ds columns)
          (genHeader ds ++ declText res.structName body (accessorMethod ds res.structName table)) := by
  obtain ⟨structName, st, m, h1, h2, h3, hres⟩ := genStruct_some u ds table columns res h
  obtain ⟨body, hb, hbuf, himp⟩ := genColumns_render u ds columns _ st h2
  have hm := genMethod_accessorMethod ds structName table m h3
  refine ⟨body, by rw [hres]; exact h1, hb, ?_⟩
  rw [hres]
  simp only [if_true] at himp
  simp only [himp, hbuf, hm, declText, List.append_assoc]

/-! ## Lemmas on the replacement of the import placeholder -/

theorem startsWith_length (old : GoString) :
    ∀ s, startsWith old s = true → old.length ≤ s.length := by
  induction old with
  | nil => intro s _; simp
  | cons a p ih =>
    intro s h
    cases s with
    | nil => simp [startsWith] at h
    | cons b s =>
      simp only [startsWith, Bool.and_eq_true] at h
      simpa using ih s h.2

theorem startsWith_append (old : GoString) :
    ∀ s b, startsWith old s = true → startsWith old (s ++ b) = true := by
  induction old with
  | nil => intro s b _; cases s ++ b <;> rfl
  | cons a p ih =>
    intro s b h
    cases s with
    | nil => simp [startsWith] at h
    | cons c s =>
      simp only [startsWith, Bool.and_eq_true, List.cons_append] at h ⊢
      exact ⟨h.1, ih s b h.2⟩

theorem startsWith_of_append (old : GoString) :
    ∀ s b, startsWith old (s ++ b) = true → old.length ≤ s.length → startsWith old s = true := by
  induction old with
  | nil => intro s b _ _; cases s <;> rfl
  | cons a p ih =>
    intro s b h hl
    cases s with
    | nil => simp at hl
    | cons c s =>
      simp only [startsWith, Bool.and_eq_true, List.cons_append] at h ⊢
      exact ⟨h.1, ih s b h.2 (by simpa using hl)⟩

theorem startsWith_of_append_sep (old : GoString) (sep : Nat) (hsep : sep ∉ old) :
    ∀ s y, startsWith old (s ++ sep :: y) = true → startsWith old s = true := by
  induction old with
  | nil => intro s y _; cases s <;> rfl
  | cons a p ih =>
    intro s y h
    simp only [List.mem_cons, not_or] at hsep
    cases s with
    | nil =>
      simp only [List.nil_append, startsWith, Bool.and_eq_true, decide_eq_true_eq] at h
      exact absurd h.1.symm hsep.1
    | cons c s =>
      simp only [startsWith, Bool.and_eq_true, List.cons_append] at h ⊢
      exact ⟨h.1, ih hsep.2 s y h.2⟩

theorem stringsContains_length (old : GoString) :
    ∀ s, stringsContains old s = true → old.length ≤ s.length := by
  intro s
  induction s with
  | nil => intro h; exact startsWith_length old [] h
  | cons b rest ih =>
    intro h
    simp only [stringsContains, Bool.or_eq_true] at h
    rcases h with h | h
    · exact startsWith_length old _ h
    · exact Nat.le_succ_of_le (ih h)

theorem stringsReplace1_of_not_contains (old new : GoString) :
    ∀ s, stringsContains old s = false → stringsReplace1 old new s = s := by
  intro s
  induction s with
  | nil => intro _; rfl
  | cons b rest ih =>
    intro h
    simp only [stringsContains, Bool.or_eq_false_iff] at h
    simp [stringsReplace1, h.1, ih h.2]

theorem stringsReplace1_append (old new : GoString) (hne : old ≠ []) :
    ∀ s b, stringsContains old s = true →
      stringsReplace1 old new (s ++ b) = stringsReplace1 old new s ++ b := by
  intro s
  induction s with
  | nil =>
    intro b h
    cases old with
    | nil => exact absurd rfl hne
    | cons a p => simp [stringsContains, startsWith] at h
  | cons c rest ih =>
    intro b h
    by_cases hs : startsWith old (c :: rest) = true
    · have hl := startsWith_length old _ hs
      have hs2 : startsWith old (c :: (rest ++ b)) = true := startsWith_append old (c :: rest) b hs
      show stringsReplace1 old new (c :: (rest ++ b)) = stringsReplace1 old new (c :: rest) ++ b
      rw [stringsReplace1, stringsReplace1, if_pos hs2, if_pos hs, List.append_assoc,
        ← List.cons_append, List.drop_append_of_le_length hl]
    · have hc : stringsContains old rest = true := by
        simp only [stringsContains, Bool.or_eq_true] at h
        rcases h with h | h
        · exact absurd h hs
        · exact h
      have hl := stringsContains_length old rest hc
      have hs2 : ¬ startsWith old (c :: (rest ++ b)) = true := by
        intro h2
        exact hs (startsWith_of_append old (c :: rest) b h2 (by simp; omega))
      show stringsReplace1 old new (c :: (rest ++ b)) = stringsReplace1 old new (c :: rest) ++ b
      rw [stringsReplace1, stringsReplace1, if_neg hs2, if_neg hs, ih b hc, List.cons_append]

theorem stringsReplace1_sep (old new : GoString) (sep : Nat) (hne : old ≠ [])
    (hsep : sep ∉ old) :
    ∀ x y, stringsContains old x = false →
      stringsReplace1 old new (x ++ sep :: y) = x ++ sep :: stringsReplace1 old new y := by
  intro x
  induction x with
  | nil =>
    intro y _
    cases old with
    | nil => exact absurd rfl hne
    | cons a p =>
      have : a ≠ sep := fun e => hsep (by simp [e])
      simp [stringsReplace1, startsWith, this]
  | cons c rest ih =>
    intro y h
    simp only [stringsContains, Bool.or_eq_false_iff] at h
    have hs2 : ¬ startsWith old (c :: (rest ++ sep :: y)) = true := by
      intro h2
      have := startsWith_of_append_sep old sep hsep (c :: rest) y h2
      rw [h.1] at this
      cases this
    show stringsReplace1 old new (c :: (rest ++ sep :: y))
      = c :: (rest ++ sep :: stringsReplace1 old new y)
    rw [stringsReplace1, if_neg hs2, ih y h.2]

theorem stringsReplace1_before_sep (old new : GoString) (sep : Nat) (hne : old ≠ [])
    (hsep : sep ∉ old) (x y : GoString) (hy : stringsContains old y = false) :
    ∃ x1, stringsReplace1 old new (x ++ sep :: y) = x1 ++ sep :: y := by
  by_cases hx : stringsContains old x = true
  · exact ⟨stringsReplace1 old new x, stringsReplace1_append old new hne x (sep :: y) hx⟩
  · refine ⟨x, ?_⟩
    rw [stringsReplace1_sep old new sep hne hsep x y (by simpa using hx),
      stringsReplace1_of_not_contains old new y hy]

theorem stringsReplace1_cons_ne (a : Nat) (p new : GoString) (b : Nat) (r : GoString)
    (h : a ≠ b) :
    stringsReplace1 (a :: p) new (b :: r) = b :: stringsReplace1 (a :: p) new r := by
  simp [stringsReplace1, startsWith, h]

theorem stringsContains_append_self (old : GoString) :
    ∀ a, stringsContains old (a ++ old) = true := by
  have hself : ∀ p : GoString, startsWith p p = true := by
    intro p
    induction p with
    | nil => rfl
    | cons a p ih => simp [startsWith, ih]
  intro a
  induction a with
  | nil =>
    cases old with
    | nil => rfl
    | cons b p => simp [stringsContains, hself]
  | cons c rest ih => simp [stringsContains, ih]

theorem importTimePkgMark_eq :
    importTimePkgMark = 123 :: str "@importTimePkg@\x7d" := by decide

theorem importTimePkgMark_no_newline : 10 ∉ importTimePkgMark := by decide

theorem columnsText_newline (u : UnicodeTables) (ds : dbStruct) (columns : List column) :
    ∀ body, columnsText u ds columns = some body → body = [] ∨ ∃ z, body = z ++ [10] := by
  induction columns with
  | nil => intro body h; simp only [columnsText, Option.some.injEq] at h; exact Or.inl h.symm
  | cons c rest ih =>
    intro body h
    unfold columnsText at h
    cases hl : fieldLine u ds c.Name c.Typ with
    | none => rw [hl] at h; cases h
    | some line =>
      cases ht : columnsText u ds rest with
      | none => rw [hl, ht] at h; cases h
      | some text =>
        rw [hl, ht] at h
        simp only [Option.some.injEq] at h
        right
        rcases ih text ht with e | ⟨z, e⟩
        · unfold fieldLine at hl
          split at hl
          · next fieldName pairs _ _ =>
            simp only [Option.some.injEq] at hl
            refine ⟨commentLine c.Comment ++ (str "\t" ++ fieldName ++ str " " ++
              getColumnGoType c.Typ ++ str " " ++ tagClause pairs), ?_⟩
            rw [← h, e, ← hl]
            have : str "\n" = [10] := by decide
            simp [this, List.append_assoc]
          · cases hl
        · exact ⟨commentLine c.Comment ++ line ++ z, by rw [← h, e]; simp [List.append_assoc]⟩

theorem genStruct_content_multiFile (u : UnicodeTables) (ds : dbStruct) (table : GoString)
    (columns : List column) (res : genStructRes) (h : genStruct u ds table columns = some res)
    (hm : ds.singleFile = false) :
    ∃ body, columnsText u ds columns = some body ∧
      res.content =
        stringsReplace1 importTimePkgMark (importClause ds columns)
          (str "package " ++ ds.packageName ++ str "\n\n " ++ importTimePkgMark) ++
        (str "\n\n " ++ declText res.structName body (accessorMethod ds res.structName table)) := by
  obtain ⟨body, _, hb, hc⟩ := genStruct_render u ds table columns res h
  refine ⟨body, hb, ?_⟩
  rw [hc, ← stringsReplace1_append _ _ (by decide) _ _ (stringsContains_append_self _ _)]
  simp [genHeader, hm, List.append_assoc]

theorem genStruct_content_singleFile (u : UnicodeTables) (ds : dbStruct) (table : GoString)
    (columns : List column) (res : genStructRes) (h : genStruct u ds table columns = some res)
    (hs : ds.singleFile = true) :
    ∃ body, columnsText u ds columns = some body ∧
      res.content =
        stringsReplace1 importTimePkgMark []
          (declText res.structName body (accessorMethod ds res.structName table)) := by
  obtain ⟨body, _, hb, hc⟩ := genStruct_render u ds table columns res h
  refine ⟨body, hb, ?_⟩
  rw [hc]
  simp [genHeader, importClause, hs]

theorem columnsText_split (u : UnicodeTables) (ds : dbStruct) (c : column)
    (post : List column) :
    ∀ (pre : List column) (body : GoString), columnsText u ds (pre ++ c :: post) = some body →
      ∃ a line b, columnsText u ds pre = some a ∧ fieldLine u ds c.Name c.Typ = some line ∧
        columnsText u ds post = some b ∧ body = a ++ (commentLine c.Comment ++ line ++ b) := by
  intro pre
  induction pre with
  | nil =>
    intro body h
    simp only [List.nil_append] at h
    unfold columnsText at h
    cases hl : fieldLine u ds c.Name c.Typ with
    | none => rw [hl] at h; cases h
    | some line =>
      cases ht : columnsText u ds post with
      | none => rw [hl, ht] at h; cases h
      | some b =>
        rw [hl, ht] at h
        exact ⟨[], line, b, rfl, rfl, rfl, by simpa using (Option.some.inj h).symm⟩
  | cons d pre ih =>
    intro body h
    rw [List.cons_append] at h
    unfold columnsText at h
    cases hl : fieldLine u ds d.Name d.Typ with
    | none => rw [hl] at h; cases h
    | some dline =>
      cases ht : columnsText u ds (pre ++ c :: post) with
      | none => rw [hl, ht] at h; cases h
      | some text =>
        rw [hl, ht] at h
        obtain ⟨a, line, b, ha, hline, hb, htext⟩ := ih text ht
        refine ⟨commentLine d.Comment ++ dline ++ a, line, b, ?_, hline, hb, ?_⟩
        · simp [columnsText, hl, ha]
        · rw [← Option.some.inj h, htext]
          simp [List.append_assoc]

/-! ## Rendering: accessor method and comment lines -/

/-- Where `genStruct` renders a table, the text it writes is the package header
(multi-file mode), the type declaration up to the closing brace and an empty line, and
then the accessor method, which is present exactly when the toggle is on and the
method name is non-empty: a method of the configured name with a pointer receiver of
the struct type and return type string, whose body returns the unformatted table name
as a string constant; otherwise nothing follows the closing brace.  The final content
is that text after the substitution of the import placeholder: in multi-file mode it
ends with the closing brace, the empty line and the method; in single-file mode it is
the text itself when the text does not contain the placeholder. -/
theorem genStruct_accessorMethod (u : UnicodeTables) (ds : dbStruct) (table : GoString)
    (columns : List column) (res : genStructRes)
    (h : genStruct u ds table columns = some res) :
    ∃ body method,
      res.content =
        stringsReplace1 importTimePkgMark (importClause ds columns)
          (genHeader ds ++
            (str "type " ++ res.structName ++ str " struct \x7b\n" ++ body ++ str "\x7d\n\n" ++
              method)) ∧
      (ds.genTableNameFunc = true ∧ ds.genTableName ≠ [] →
        method =
          str "func (" ++ stringsToLower (res.structName.take 1) ++ str " *" ++ res.structName ++
            str ") " ++ ds.genTableName ++ str "() string \x7b\n\treturn \"" ++ table ++
            str "\"\n\x7d") ∧
      (¬ (ds.genTableNameFunc = true ∧ ds.genTableName ≠ []) → method = []) ∧
      (ds.singleFile = false →
        ∃ head, res.content = head ++ (str "\x7d\n\n" ++ method)) ∧
      (ds.singleFile = true →
        stringsContains importTimePkgMark
          (str "type " ++ res.structName ++ str " struct \x7b\n" ++ body ++ str "\x7d\n\n" ++
            method) = false →
        res.content =
          str "type " ++ res.structName ++ str " struct \x7b\n" ++ body ++ str "\x7d\n\n" ++
            method) := by
  obtain ⟨body, _, hb, hc⟩ := genStruct_render u ds table columns res h
  refine ⟨body, accessorMethod ds res.structName table, ?_, ?_, ?_, ?_, ?_⟩
  · rw [hc]; rfl
  · intro ht; simp [accessorMethod, ht]
  · intro ht; simp only [accessorMethod, if_neg ht]
  · intro hm
    obtain ⟨body2, hb2, hc2⟩ := genStruct_content_multiFile u ds table columns res h hm
    rw [hb] at hb2
    cases hb2
    refine ⟨stringsReplace1 importTimePkgMark (importClause ds columns)
      (str "package " ++ ds.packageName ++ str "\n\n " ++ importTimePkgMark) ++
      (str "\n\n " ++ (str "type " ++ res.structName ++ str " struct \x7b\n" ++ body)), ?_⟩
    rw [hc2]
    simp [declText, List.append_assoc]
  · intro hs hn
    obtain ⟨body2, hb2, hc2⟩ := genStruct_content_singleFile u ds table columns res h hs
    rw [hb] at hb2
    cases hb2
    rw [hc2]
    exact stringsReplace1_of_not_contains _ _ _ hn

set_option maxRecDepth 100000 in
/-- The table `user_group` of the scenario in multi-file mode: the content
ends with the method `TableName` that returns "user_group". -/
theorem genStruct_accessorMethod_witness :
    ∃ res,
      genStruct asciiTables scenarioDs (str "user_group") userGroupColumns = some res ∧
      res.structName = str "UserGroup" ∧
      ∃ head, res.content = head ++ (str "\x7d\n\n" ++
        str "func (u *UserGroup) TableName() string \x7b\n\treturn \"user_group\"\n\x7d") :=
  match h : genStruct asciiTables scenarioDs (str "user_group") userGroupColumns with
  | none => absurd h (by decide)
  | some res => by
    have hname : res.structName = str "UserGroup" := by
      have e : (genStruct asciiTables scenarioDs (str "user_group") userGroupColumns).map
          (fun r => r.structName) = some (str "UserGroup") := by decide
      rw [h] at e
      exact Option.some.inj e
    obtain ⟨body, method, _, hon, _, hmulti, _⟩ :=
      genStruct_accessorMethod asciiTables scenarioDs (str "user_group") userGroupColumns res h
    obtain ⟨head, hhead⟩ := hmulti (by decide)
    refine ⟨res, rfl, hname, head, ?_⟩
    have e : str "func (" ++ stringsToLower ((str "UserGroup").take 1) ++ str " *" ++
        str "UserGroup" ++ str ") " ++ scenarioDs.genTableName ++
        str "() string \x7b\n\treturn \"" ++ str "user_group" ++ str "\"\n\x7d"
        = str "func (u *UserGroup) TableName() string \x7b\n\treturn \"user_group\"\n\x7d" := by
      decide
    rw [hhead, hon (by decide), hname, e]

/-- Where `genStruct` renders a table, every column contributes its comment
line and then its field line, in column order; the comment line is a tab, two slashes,
the comment and a line end when the comment is non-empty, and nothing at all when it
is empty; the lines of the columns before and after are those of these columns alone.
The final content is that text after the substitution of the import placeholder: in
multi-file mode the lines of the columns stand in it unchanged; in single-file mode it
is the text itself when the text does not contain the placeholder. -/
theorem genStruct_commentLine (u : UnicodeTables) (ds : dbStruct) (table : GoString)
    (pre post : List column) (c : column) (res : genStructRes)
    (h : genStruct u ds table (pre ++ c :: post) = some res) :
    ∃ before line after,
      columnsText u ds pre = some before ∧
      fieldLine u ds c.Name c.Typ = some line ∧
      columnsText u ds post = some after ∧
      res.content =
        stringsReplace1 importTimePkgMark (importClause ds (pre ++ c :: post))
          (genHeader ds ++
            (str "type " ++ res.structName ++ str " struct \x7b\n" ++ before ++
              ((if c.Comment = [] then [] else str "\t// " ++ c.Comment ++ str "\n") ++ line) ++
              after ++ str "\x7d\n\n" ++ accessorMethod ds res.structName table)) ∧
      (ds.singleFile = false →
        ∃ head tail,
          res.content = head ++ before ++
            ((if c.Comment = [] then [] else str "\t// " ++ c.Comment ++ str "\n") ++ line) ++
            after ++ tail) ∧
      (ds.singleFile = true →
        stringsContains importTimePkgMark
          (str "type " ++ res.structName ++ str " struct \x7b\n" ++ before ++
            ((if c.Comment = [] then [] else str "\t// " ++ c.Comment ++ str "\n") ++ line) ++
            after ++ str "\x7d\n\n" ++ accessorMethod ds res.structName table) = false →
        res.content =
          str "type " ++ res.structName ++ str " struct \x7b\n" ++ before ++
            ((if c.Comment = [] then [] else str "\t// " ++ c.Comment ++ str "\n") ++ line) ++
            after ++ str "\x7d\n\n" ++ accessorMethod ds res.structName table) := by
  obtain ⟨body, _, hb, hc⟩ := genStruct_render u ds table _ res h
  obtain ⟨a, line, b, ha, hl, hpost, hbody⟩ := columnsText_split u ds c post pre body hb
  have hcl : commentLine c.Comment
      = (if c.Comment = [] then [] else str "\t// " ++ c.Comment ++ str "\n") := rfl
  have htext : declText res.structName body (accessorMethod ds res.structName table)
      = str "type " ++ res.structName ++ str " struct \x7b\n" ++ a ++
          ((if c.Comment = [] then [] else str "\t// " ++ c.Comment ++ str "\n") ++ line) ++
          b ++ str "\x7d\n\n" ++ accessorMethod ds res.structName table := by
    rw [hbody, hcl]
    simp [declText, List.append_assoc]
  refine ⟨a, line, b, ha, hl, hpost, ?_, ?_, ?_⟩
  · rw [hc, htext]
  · intro hm
    obtain ⟨body2, hb2, hc2⟩ := genStruct_content_multiFile u ds table _ res h hm
    rw [hb] at hb2
    cases hb2
    refine ⟨stringsReplace1 importTimePkgMark (importClause ds (pre ++ c :: post))
      (str "package " ++ ds.packageName ++ str "\n\n " ++ importTimePkgMark) ++
      (str "\n\n " ++ (str "type " ++ res.structName ++ str " struct \x7b\n")),
      str "\x7d\n\n" ++ accessorMethod ds res.structName table, ?_⟩
    rw [hc2, htext]
    simp [List.append_assoc]
  · intro hs hn
    obtain ⟨body2, hb2, hc2⟩ := genStruct_content_singleFile u ds table _ res h hs
    rw [hb] at hb2
    cases hb2
    rw [hc2, htext]
    exact stringsReplace1_of_not_contains _ _ _ hn

set_option maxRecDepth 100000 in
/-- A table of the scenario whose second column has the comment `login name`
and whose first column has none. -/
theorem genStruct_commentLine_witness :
    ∃ res,
      genStruct asciiTables scenarioDs (str "user_group")
        ([⟨str "id", str "bigint", str "NO", str "user_group", []⟩] ++ commentedColumn :: [])
        = some res ∧
      ∃ head tail,
        res.content = head ++ str "\tId int64 `json:\"id\"`\n" ++
          (str "\t// login name\n" ++ str "\tUserName string `json:\"userName\"`\n") ++
          [] ++ tail :=
  match h : genStruct asciiTables scenarioDs (str "user_group")
      ([⟨str "id", str "bigint", str "NO", str "user_group", []⟩] ++ commentedColumn :: []) with
  | none => absurd h (by decide)
  | some res => by
    obtain ⟨before, line, after, hb, hl, ha, _, hmulti, _⟩ :=
      genStruct_commentLine asciiTables scenarioDs (str "user_group")
        [⟨str "id", str "bigint", str "NO", str "user_group", []⟩] [] commentedColumn res h
    obtain ⟨head, tail, hc⟩ := hmulti (by decide)
    have eb : columnsText asciiTables scenarioDs
        [⟨str "id", str "bigint", str "NO", str "user_group", []⟩]
        = some (str "\tId int64 `json:\"id\"`\n") := by decide
    have el : fieldLine asciiTables scenarioDs commentedColumn.Name commentedColumn.Typ
        = some (str "\tUserName string `json:\"userName\"`\n") := by decide
    have ea : columnsText asciiTables scenarioDs [] = some [] := rfl
    have ec : (if commentedColumn.Comment = [] then []
        else str "\t// " ++ commentedColumn.Comment ++ str "\n") = str "\t// login name\n" := by
      decide
    rw [eb] at hb
    rw [el] at hl
    rw [ea] at ha
    cases hb
    cases hl
    cases ha
    rw [ec] at hc
    exact ⟨res, h, head, tail, hc⟩

/-! ## Single-file assembly: lemmas -/

theorem genStruct_fragment_start (u : UnicodeTables) (ds : dbStruct) (table : GoString)
    (columns : List column) (res : genStructRes) (h : genStruct u ds table columns = some res)
    (hs : ds.singleFile = true) :
    ∃ y, res.content = str "type " ++ y := by
  obtain ⟨body, _, hc⟩ := genStruct_content_singleFile u ds table columns res h hs
  have e : str "type " = [116, 121, 112, 101, 32] := by decide
  refine ⟨stringsReplace1 importTimePkgMark []
    (res.structName ++ str " struct \x7b\n" ++ body ++ str "\x7d\n\n" ++
      accessorMethod ds res.structName table), ?_⟩
  rw [hc, declText, e, importTimePkgMark_eq]
  simp only [List.append_assoc, List.cons_append, List.nil_append]
  rw [stringsReplace1_cons_ne _ _ _ _ _ (by decide), stringsReplace1_cons_ne _ _ _ _ _ (by decide),
    stringsReplace1_cons_ne _ _ _ _ _ (by decide), stringsReplace1_cons_ne _ _ _ _ _ (by decide),
    stringsReplace1_cons_ne _ _ _ _ _ (by decide)]

theorem genStruct_fragment_end (u : UnicodeTables) (ds : dbStruct) (table : GoString)
    (columns : List column) (res : genStructRes) (h : genStruct u ds table columns = some res)
    (hs : ds.singleFile = true) :
    ∃ x, res.content = x ++
      (if ds.genTableNameFunc = true ∧ ds.genTableName ≠ [] then str "\n\x7d"
        else str "\n\x7d\n\n") := by
  obtain ⟨body, hb, hc⟩ := genStruct_content_singleFile u ds table columns res h hs
  have hne : importTimePkgMark ≠ [] := by decide
  by_cases ht : ds.genTableNameFunc = true ∧ ds.genTableName ≠ []
  · rw [if_pos ht]
    have e : declText res.structName body (accessorMethod ds res.structName table)
        = (str "type " ++ res.structName ++ str " struct \x7b\n" ++ body ++ str "\x7d\n\n" ++
            (str "func (" ++ stringsToLower (res.structName.take 1) ++ str " *" ++
              res.structName ++ str ") " ++ ds.genTableName ++
              str "() string \x7b\n\treturn \"" ++ table ++ [34])) ++ 10 :: [125] := by
      have e1 : str "\"\n\x7d" = [34] ++ 10 :: [125] := by decide
      simp only [declText, accessorMethod, if_pos ht, e1, List.append_assoc]
    obtain ⟨x, hx⟩ := stringsReplace1_before_sep importTimePkgMark [] 10 hne
      importTimePkgMark_no_newline
      (str "type " ++ res.structName ++ str " struct \x7b\n" ++ body ++ str "\x7d\n\n" ++
        (str "func (" ++ stringsToLower (res.structName.take 1) ++ str " *" ++
          res.structName ++ str ") " ++ ds.genTableName ++
          str "() string \x7b\n\treturn \"" ++ table ++ [34])) [125] (by decide)
    refine ⟨x, ?_⟩
    rw [hc, e, hx]
    have e2 : str "\n\x7d" = 10 :: [125] := by decide
    rw [e2]
  · rw [if_neg ht]
    have e2 : str "\n\x7d\n\n" = 10 :: [125, 10, 10] := by decide
    have e3 : str "\x7d\n\n" = [125, 10, 10] := by decide
    have e4 : str " struct \x7b\n" = str " struct \x7b" ++ [10] := by decide
    have hz : ∃ z, declText res.structName body (accessorMethod ds res.structName table)
        = z ++ 10 :: [125, 10, 10] := by
      rcases columnsText_newline u ds columns body hb with e | ⟨z, e⟩
      · refine ⟨str "type " ++ res.structName ++ str " struct \x7b", ?_⟩
        simp only [declText, accessorMethod, if_neg ht, e, e3, e4, List.append_assoc,
          List.append_nil, List.nil_append, List.cons_append]
      · refine ⟨str "type " ++ res.structName ++ str " struct \x7b\n" ++ z, ?_⟩
        simp only [declText, accessorMethod, if_neg ht, e, e3, List.append_assoc,
          List.append_nil, List.nil_append, List.cons_append]
    obtain ⟨z, hz⟩ := hz
    obtain ⟨x, hx⟩ := stringsReplace1_before_sep importTimePkgMark [] 10 hne
      importTimePkgMark_no_newline z [125, 10, 10] (by decide)
    refine ⟨x, ?_⟩
    rw [hc, hz, hx, e2]

theorem finalContent_append (ds : dbStruct) (need : Bool) (a b : List (GoString × GoString)) :
    finalContent ds need (a ++ b)
      = finalContent ds need a ++ (b.map fun w => w.2 ++ str "\n\n\n").flatten := by
  simp [finalContent, List.append_assoc]

/-! ## Single-file assembly: the separation of declarations -/

/-- C14, as the code has it: in single-file mode the assembled content puts exactly
three newline characters after every table's fragment, and the next fragment starts
with its `type` line.  A fragment with an accessor method ends with the closing brace
of the method, so three newline characters separate it from the next `type` line; a
fragment without accessor method ends with the closing brace of the struct and two
newline characters of its own, so five newline characters separate that brace from
the next `type` line. -/
theorem finalContent_separation (u : UnicodeTables) (ds : dbStruct) (hs : ds.singleFile = true)
    (table1 table2 : GoString) (columns1 columns2 : List column) (res1 res2 : genStructRes)
    (h1 : genStruct u ds table1 columns1 = some res1)
    (h2 : genStruct u ds table2 columns2 = some res2)
    (need : Bool) (pre post : List (GoString × GoString)) :
    ∃ x y,
      res1.content = x ++
        (if ds.genTableNameFunc = true ∧ ds.genTableName ≠ [] then str "\n\x7d"
          else str "\n\x7d\n\n") ∧
      res2.content = str "type " ++ y ∧
      finalContent ds need
          (pre ++ (res1.structName, res1.content) :: (res2.structName, res2.content) :: post)
        = finalContent ds need pre ++
          (x ++ (if ds.genTableNameFunc = true ∧ ds.genTableName ≠ [] then str "\n\x7d"
            else str "\n\x7d\n\n")) ++
          str "\n\n\n" ++ (str "type " ++ y) ++ str "\n\n\n" ++
          (post.map fun w => w.2 ++ str "\n\n\n").flatten := by
  obtain ⟨x, hx⟩ := genStruct_fragment_end u ds table1 columns1 res1 h1 hs
  obtain ⟨y, hy⟩ := genStruct_fragment_start u ds table2 columns2 res2 h2 hs
  refine ⟨x, y, hx, hy, ?_⟩
  rw [finalContent_append, ← hx, ← hy]
  simp [List.append_assoc]

set_option maxRecDepth 100000 in
/-- C14 fails without accessor method: for the tables `orders` and `users` rendered in
single-file mode with the accessor toggle off, five newline characters stand between
the closing brace of `Orders` and the line `type Users struct`. -/
theorem finalContent_separation_plain :
    plainDs.singleFile = true ∧ plainDs.genTableNameFunc = false ∧
    Generate asciiTables (scenarioEnv ordersUsersRows) plainDs
      = { ds := { plainDs with dbOpen := true, modelPath := str "/w/model/models.go" },
          exit := Exit.returned none,
          written :=
            [ (str "/w/model/models.go", []),
              (str "/w/model/models.go",
                str ("package model\n\n" ++
                  "type Orders struct \x7b\n\tId int `json:\"id\"`\n\x7d\n\n" ++ "\n\n\n" ++
                  "type Users struct \x7b\n\tId int `json:\"id\"`\n\x7d\n\n" ++ "\n\n\n")) ] } := by
  decide

set_option maxRecDepth 100000 in
/-- C14, on the tables `orders` and `users` rendered in single-file mode with the
accessor method. -/
theorem finalContent_separation_witness :
    ∃ res1 res2,
      genStruct asciiTables singleFileDs (str "orders")
        [⟨str "id", str "int", str "NO", str "orders", []⟩] = some res1 ∧
      genStruct asciiTables singleFileDs (str "users")
        [⟨str "id", str "int", str "NO", str "users", []⟩] = some res2 ∧
      ∃ x y,
        res1.content = x ++ str "\n\x7d" ∧
        res2.content = str "type " ++ y ∧
        finalContent singleFileDs false
            ([] ++ (res1.structName, res1.content) :: (res2.structName, res2.content) :: [])
          = finalContent singleFileDs false [] ++ (x ++ str "\n\x7d") ++
            str "\n\n\n" ++ (str "type " ++ y) ++ str "\n\n\n" ++ [] :=
  match h1 : genStruct asciiTables singleFileDs (str "orders")
      [⟨str "id", str "int", str "NO", str "orders", []⟩],
    h2 : genStruct asciiTables singleFileDs (str "users")
      [⟨str "id", str "int", str "NO", str "users", []⟩] with
  | some res1, some res2 => by
    obtain ⟨x, y, hx, hy, hf⟩ :=
      finalContent_separation asciiTables singleFileDs (by decide) _ _ _ _ res1 res2 h1 h2
        false [] []
    have ht : singleFileDs.genTableNameFunc = true ∧ singleFileDs.genTableName ≠ [] := by decide
    rw [if_pos ht] at hx hf
    exact ⟨res1, res2, rfl, rfl, x, y, hx, hy, by simpa using hf⟩
  | none, _ => absurd h1 (by decide)
  | some _, none => absurd h2 (by decide)

/-! ## Generation: the steps of a run -/

theorem connectDB_eq (env : Env) (ds : dbStruct) :
    ∃ o e, connectDB env ds = { ds with dbOpen := o, err := e } := by
  unfold connectDB
  split
  · split
    · exact ⟨true, none, rfl⟩
    · next e _ => exact ⟨false, some e, rfl⟩
  · exact ⟨ds.dbOpen, ds.err, rfl⟩

theorem addFlagTags_eq (ds : dbStruct) :
    addFlagTags ds = { ds with tags := ds.tags ++ flagTags ds } := by
  rcases ds with ⟨dsn, tables, tagJson, tagOrm, _, _, _, _, _, _, _, _, tags, _, _⟩
  cases tagJson <;> cases tagOrm <;> simp [addFlagTags, AppendTag, flagTags]

theorem defaultModelPath_eq (env : Env) (ds ds3 : dbStruct)
    (h : defaultModelPath env ds = Except.ok ds3) :
    ∃ p, ds3 = { ds with modelPath := p } ∧
      (ds.modelPath ≠ [] → p = ds.modelPath) ∧
      (ds.modelPath = [] → ∃ wd, env.getwd = Except.ok wd ∧
        p = wd ++ if ds.singleFile = true then str "/model/models.go" else str "/model") := by
  unfold defaultModelPath at h
  by_cases hp : ds.modelPath = []
  · rw [if_pos hp] at h
    cases hw : env.getwd with
    | error e => rw [hw] at h; cases h
    | ok wd =>
      rw [hw] at h
      cases h
      exact ⟨_, rfl, fun hne => absurd hp hne, fun _ => ⟨wd, rfl, rfl⟩⟩
  · rw [if_neg hp] at h
    cases h
    exact ⟨ds.modelPath, rfl, fun _ => rfl, fun e => absurd e hp⟩

theorem output_ds (u : UnicodeTables) (env : Env) (ds : dbStruct)
    (writes : List (GoString × GoString)) (need : Bool) :
    (output u env ds writes need).ds = ds := by
  unfold output
  split
  · split
    · rfl
    · split
      · rfl
      · split <;> rfl
  · split
    · rfl
    · exact writeMany_ds u env ds writes []

theorem Generate_run (u : UnicodeTables) (env : Env) (ds : dbStruct)
    (tables : List (GoString × List column))
    (hok : (Generate u env ds).exit = Exit.returned none)
    (ht : getTables env ds = some (Except.ok tables)) :
    ∃ results ds3,
      ds.dsn ≠ [] ∧ (connectDB env ds).err = none ∧
      genAll u (addFlagTags (connectDB env ds)) tables = some results ∧
      defaultModelPath env (addFlagTags (connectDB env ds)) = Except.ok ds3 ∧
      Generate u env ds
        = output u env ds3 (collectLoop [] false results).1 (collectLoop [] false results).2 := by
  have hc := connectDB_fields env ds
  have ha := addFlagTags_fields (connectDB env ds)
  have ht2 : getTables env (addFlagTags (connectDB env ds)) = some (Except.ok tables) := by
    rw [getTables_congr env _ ds (by rw [ha.1, hc.1]), ht]
  unfold Generate at hok ⊢
  split at hok
  · cases hok
  · next hdsn =>
    rw [if_neg hdsn]
    dsimp only at hok ⊢
    cases he : (connectDB env ds).err with
    | some e => rw [he] at hok; cases hok
    | none =>
      rw [he] at hok
      dsimp only at hok ⊢
      rw [ht2] at hok ⊢
      dsimp only at hok ⊢
      cases hg : genAll u (addFlagTags (connectDB env ds)) tables with
      | none => rw [hg] at hok; cases hok
      | some results =>
        rw [hg] at hok
        dsimp only at hok ⊢
        cases hd : defaultModelPath env (addFlagTags (connectDB env ds)) with
        | error e => rw [hd] at hok; cases hok
        | ok ds3 => exact ⟨results, ds3, hdsn, rfl, rfl, rfl, rfl⟩

theorem Generate_ds (u : UnicodeTables) (env : Env) (ds : dbStruct) (hdsn : ds.dsn ≠ []) :
    ∃ p,
      (Generate u env ds).ds
        = { ds with
            dbOpen := (connectDB env ds).dbOpen, err := (connectDB env ds).err, modelPath := p,
            tags := if (connectDB env ds).err = none then ds.tags ++ flagTags ds else ds.tags } ∧
      (ds.modelPath ≠ [] → p = ds.modelPath) := by
  obtain ⟨o, e, hc⟩ := connectDB_eq env ds
  have ho : o = (connectDB env ds).dbOpen := by rw [hc]
  have he0 : e = (connectDB env ds).err := by rw [hc]
  unfold Generate
  rw [if_neg hdsn]
  dsimp only
  cases he : (connectDB env ds).err with
  | some e1 =>
    dsimp only
    refine ⟨ds.modelPath, ?_, fun _ => rfl⟩
    rw [he] at he0
    rw [← ho, hc, he0]
    simp
  | none =>
    dsimp only
    rw [he] at he0
    have hD : addFlagTags (connectDB env ds)
        = { ds with dbOpen := o, err := e, tags := ds.tags ++ flagTags ds } := by
      rw [addFlagTags_eq, hc]
      simp [flagTags]
    cases hg : getTables env (addFlagTags (connectDB env ds)) with
    | none =>
      dsimp only
      exact ⟨ds.modelPath, by rw [hD, ← ho, he0]; simp, fun _ => rfl⟩
    | some r =>
      cases r with
      | error e2 =>
        dsimp only
        exact ⟨ds.modelPath, by rw [hD, ← ho, he0]; simp, fun _ => rfl⟩
      | ok tables =>
        dsimp only
        cases hr : genAll u (addFlagTags (connectDB env ds)) tables with
        | none =>
          dsimp only
          exact ⟨ds.modelPath, by rw [hD, ← ho, he0]; simp, fun _ => rfl⟩
        | some results =>
          dsimp only
          cases hd : defaultModelPath env (addFlagTags (connectDB env ds)) with
          | error e3 =>
            dsimp only
            exact ⟨ds.modelPath, by rw [hD, ← ho, he0]; simp, fun _ => rfl⟩
          | ok ds3 =>
            dsimp only
            obtain ⟨p, hp, hp1, _⟩ := defaultModelPath_eq env _ ds3 hd
            refine ⟨p, ?_, ?_⟩
            · rw [output_ds, hp, hD, ← ho, he0]
              simp
            · intro hne
              have hm : (addFlagTags (connectDB env ds)).modelPath = ds.modelPath := by rw [hD]
              rw [hm] at hp1
              exact hp1 hne

theorem Generate_multiFile_run (u : UnicodeTables) (env : Env) (ds : dbStruct)
    (tables : List (GoString × List column))
    (hm : ds.singleFile = false) (hok : (Generate u env ds).exit = Exit.returned none)
    (ht : getTables env ds = some (Except.ok tables)) :
    ∃ results ds3,
      genAll u (addFlagTags (connectDB env ds)) tables = some results ∧
      defaultModelPath env (addFlagTags (connectDB env ds)) = Except.ok ds3 ∧
      Generate u env ds = writeMany u env ds3 [] (collectLoop [] false results).1 := by
  obtain ⟨results, ds3, _, _, hg, hd, hgen⟩ := Generate_run u env ds tables hok ht
  refine ⟨results, ds3, hg, hd, ?_⟩
  have hs : ds3.singleFile = false := by
    rw [(defaultModelPath_fields env _ ds3 hd).1, (addFlagTags_fields _).2.1,
      (connectDB_fields env ds).2.1, hm]
  rw [hgen] at hok ⊢
  unfold output at hok ⊢
  simp only [hs, Bool.false_eq_true, if_false] at hok ⊢
  cases hmk : env.mkdirAll ds3.modelPath with
  | some e => rw [hmk] at hok; cases hok
  | none => rfl

/-- C11, as the code has it: in multi-file mode, when `Generate` returns nil, the file
written for a table is named by the table's struct name (the table name formatted with
the struct-name mode) formatted with the file-name mode, with extension `.go`, under
the output path; every table of the fetched schema has such a file and no other file
is written.  The output path is the configured one, or the working directory followed
by `/model` when none is configured. -/
theorem Generate_multiFile_fileName (u : UnicodeTables) (env : Env) (ds : dbStruct)
    (tables : List (GoString × List column))
    (hm : ds.singleFile = false) (hok : (Generate u env ds).exit = Exit.returned none)
    (ht : getTables env ds = some (Except.ok tables)) :
    (∀ t ∈ tables, ∃ structName filename,
      getFormatName u t.1 ds.structNameFmt = some structName ∧
      getFormatName u structName ds.fileNameFmt = some filename ∧
      (Generate u env ds).ds.modelPath ++ str "/" ++ filename ++ str ".go"
        ∈ (Generate u env ds).written.map Prod.fst) ∧
    (∀ p ∈ (Generate u env ds).written.map Prod.fst, ∃ t ∈ tables, ∃ structName filename,
      getFormatName u t.1 ds.structNameFmt = some structName ∧
      getFormatName u structName ds.fileNameFmt = some filename ∧
      p = (Generate u env ds).ds.modelPath ++ str "/" ++ filename ++ str ".go") ∧
    (ds.modelPath ≠ [] → (Generate u env ds).ds.modelPath = ds.modelPath) ∧
    (ds.modelPath = [] → ∃ wd, env.getwd = Except.ok wd ∧
      (Generate u env ds).ds.modelPath = wd ++ str "/model") := by
  obtain ⟨results, ds3, hg, hd, hgen⟩ := Generate_multiFile_run u env ds tables hm hok ht
  have hc := connectDB_fields env ds
  have ha := addFlagTags_fields (connectDB env ds)
  have hf := defaultModelPath_fields env _ ds3 hd
  have hfmt : ds3.fileNameFmt = ds.fileNameFmt := by rw [hf.2.2, ha.2.2.2, hc.2.2.2]
  have hds : (Generate u env ds).ds = ds3 := by rw [hgen]; exact writeMany_ds u env ds3 _ _
  have hnames := genAll_structNames u _ tables results hg
  rw [ha.2.2.1, hc.2.2.1] at hnames
  have hpaths := writeMany_paths u env ds3 (collectLoop [] false results).1 []
    (by rw [← hgen]; exact hok)
  rw [← hgen] at hpaths
  simp only [List.map_nil, List.nil_append, hfmt] at hpaths
  have hkeys := collectLoop_mem_keys results [] false
  obtain ⟨p0, hp0, hp1, hp2⟩ := defaultModelPath_eq env _ ds3 hd
  have hD : (addFlagTags (connectDB env ds)).modelPath = ds.modelPath := by
    obtain ⟨o, e, hce⟩ := connectDB_eq env ds
    rw [addFlagTags_eq, hce]
  have hDs : (addFlagTags (connectDB env ds)).singleFile = false := by rw [ha.2.1, hc.2.1, hm]
  have hp3 : ds3.modelPath = p0 := by rw [hp0]
  refine ⟨?_, ?_, ?_, ?_⟩
  · intro t htm
    have h1 : getFormatName u t.1 ds.structNameFmt
        ∈ tables.map fun t => getFormatName u t.1 ds.structNameFmt :=
      List.mem_map.2 ⟨t, htm, rfl⟩
    rw [← hnames] at h1
    obtain ⟨r, hr, hrn⟩ := List.mem_map.1 h1
    have h2 : r.structName ∈ (collectLoop [] false results).1.map Prod.fst :=
      (hkeys r.structName).2 (Or.inr (List.mem_map.2 ⟨r, hr, rfl⟩))
    obtain ⟨w, hw, hwn⟩ := List.mem_map.1 h2
    have h3 : (getFormatName u w.1 ds.fileNameFmt).map (pathOf ds3)
        ∈ (collectLoop [] false results).1.map
            fun w => (getFormatName u w.1 ds.fileNameFmt).map (pathOf ds3) :=
      List.mem_map.2 ⟨w, hw, rfl⟩
    rw [← hpaths] at h3
    obtain ⟨w2, hw2, he⟩ := List.mem_map.1 h3
    rw [hwn] at he
    cases hfn : getFormatName u r.structName ds.fileNameFmt with
    | none => rw [hfn] at he; cases he
    | some filename =>
      rw [hfn] at he
      simp only [Option.map_some', Option.some.injEq] at he
      refine ⟨r.structName, filename, hrn.symm, hfn, ?_⟩
      rw [hds]
      exact List.mem_map.2 ⟨w2, hw2, he⟩
  · intro p hp
    obtain ⟨w2, hw2, he⟩ := List.mem_map.1 hp
    have h3 : some w2.1 ∈ (Generate u env ds).written.map fun w => some w.1 :=
      List.mem_map.2 ⟨w2, hw2, rfl⟩
    rw [hpaths] at h3
    obtain ⟨w, hw, hwe⟩ := List.mem_map.1 h3
    have h2 : w.1 ∈ (collectLoop [] false results).1.map Prod.fst := List.mem_map.2 ⟨w, hw, rfl⟩
    rcases (hkeys w.1).1 h2 with h | h
    · cases h
    · obtain ⟨r, hr, hrn⟩ := List.mem_map.1 h
      have h1 : some r.structName ∈ results.map fun r => some r.structName :=
        List.mem_map.2 ⟨r, hr, rfl⟩
      rw [hnames] at h1
      obtain ⟨t, htm, hte⟩ := List.mem_map.1 h1
      cases hfn : getFormatName u w.1 ds.fileNameFmt with
      | none => rw [hfn] at hwe; cases hwe
      | some filename =>
        rw [hfn] at hwe
        simp only [Option.map_some', Option.some.injEq] at hwe
        refine ⟨t, htm, w.1, filename, ?_, hfn, ?_⟩
        · rw [hte]; exact congrArg some hrn
        · rw [hds, ← he, ← hwe]; rfl
  · intro hne
    rw [hds, hp3]
    rw [hD] at hp1
    exact hp1 hne
  · intro he
    rw [hD] at hp2
    obtain ⟨wd, hwd, hpe⟩ := hp2 he
    refine ⟨wd, hwd, ?_⟩
    rw [hds, hp3, hpe]
    simp [hDs]

set_option maxRecDepth 100000 in
/-- C11 fails when the struct-name mode changes the name: with struct-name mode
`FmtUnderlineToStartUpHump` and file-name mode `FmtDefault` the table `user_group` is
written to `UserGroup.go`, while the table name formatted with the file-name mode is
`user_group`. -/
theorem Generate_multiFile_fileName_structName :
    scenarioDs.singleFile = false ∧ scenarioDs.fileNameFmt = FmtDefault ∧
    getFormatName asciiTables (str "user_group") scenarioDs.fileNameFmt
      = some (str "user_group") ∧
    (Generate asciiTables (scenarioEnv scenarioRows) scenarioDs).exit = Exit.returned none ∧
    (Generate asciiTables (scenarioEnv scenarioRows) scenarioDs).written.map Prod.fst
      = [str "/w/model/UserGroup.go", str "/w/model/Orders.go"] := by
  decide

set_option maxRecDepth 100000 in
/-- C11, on the scenario with the tables `user_group` and `orders`. -/
theorem Generate_multiFile_fileName_witness :
    (∃ structName filename,
      getFormatName asciiTables (str "user_group") scenarioDs.structNameFmt = some structName ∧
      getFormatName asciiTables structName scenarioDs.fileNameFmt = some filename ∧
      (Generate asciiTables (scenarioEnv scenarioRows) scenarioDs).ds.modelPath ++ str "/" ++
          filename ++ str ".go"
        ∈ (Generate asciiTables (scenarioEnv scenarioRows) scenarioDs).written.map Prod.fst) ∧
    (Generate asciiTables (scenarioEnv scenarioRows) scenarioDs).ds.modelPath = str "/w/model" :=
  ⟨(Generate_multiFile_fileName asciiTables (scenarioEnv scenarioRows) scenarioDs scenarioTables
      (by decide) (by decide) rfl).1 (str "user_group", userGroupColumns) (by decide),
    by decide⟩

theorem foldl_AppendTag_tags (vs : List Tag) :
    ∀ ds : dbStruct, (vs.foldl AppendTag ds).tags = ds.tags ++ vs := by
  induction vs with
  | nil => intro ds; simp
  | cons v rest ih =>
    intro ds
    rw [List.foldl_cons, ih]
    simp [AppendTag]

/-- C17: for a configuration whose DSN is empty, `Generate` returns the error "DSN未配置"
at once: nothing is written, the configuration is returned as it was, the connection
flag included, and no collaborator has any influence on the outcome. -/
theorem Generate_empty_dsn (u : UnicodeTables) (env : Env) (ds : dbStruct)
    (h : ds.dsn = []) :
    Generate u env ds = { ds := ds, exit := Exit.returned (some (str "DSN未配置")), written := [] } ∧
    ∀ env2, Generate u env2 ds = Generate u env ds := by
  have key : ∀ e, Generate u e ds
      = { ds := ds, exit := Exit.returned (some (str "DSN未配置")), written := [] } := by
    intro e
    unfold Generate
    rw [if_pos h]
  exact ⟨key env, fun env2 => by rw [key env2, key env]⟩

/-- C17, on the configuration made by `NewDBStruct`, whose DSN is empty. -/
theorem Generate_empty_dsn_witness :
    (NewDBStruct).dsn = [] ∧
    (Generate asciiTables (scenarioEnv scenarioRows) NewDBStruct).ds = NewDBStruct ∧
    (Generate asciiTables (scenarioEnv scenarioRows) NewDBStruct).written = [] ∧
    (Generate asciiTables (scenarioEnv scenarioRows) NewDBStruct).exit
      = Exit.returned (some (str "DSN未配置")) :=
  ⟨rfl,
    congrArg Outcome.ds
      (Generate_empty_dsn asciiTables (scenarioEnv scenarioRows) NewDBStruct rfl).1,
    congrArg Outcome.written
      (Generate_empty_dsn asciiTables (scenarioEnv scenarioRows) NewDBStruct rfl).1,
    congrArg Outcome.exit
      (Generate_empty_dsn asciiTables (scenarioEnv scenarioRows) NewDBStruct rfl).1⟩

theorem connectDB_open (env : Env) (ds : dbStruct) (h : (connectDB env ds).err = none) :
    (connectDB env ds).dbOpen = true := by
  unfold connectDB at h ⊢
  by_cases hd : ds.dbOpen = false
  · rw [if_pos hd] at h ⊢
    cases hs : env.sqlOpen ds.dsn with
    | none => rfl
    | some e => rw [hs] at h; cases h
  · rw [if_neg hd]
    simpa using hd

theorem connectDB_of_open (env : Env) (ds : dbStruct) (h : ds.dbOpen = true) :
    connectDB env ds = ds := by
  unfold connectDB
  rw [if_neg (by simp [h])]

/-- C19, as the code has it: for a configuration with a non-empty DSN, `Generate`
leaves the DSN, the table list, the two convenience flags, the three casing modes, the
accessor settings, the single-file flag and the package name as they were, and leaves
a non-empty output path as it was; but once the connection is open it appends to the
tag list a json tag and an orm tag for the flags that are set (a failed connection
leaves the tag list alone).  A second run on the same configuration therefore renders
with the tag list of the first run followed once more by the flag tags. -/
theorem Generate_configuration (u : UnicodeTables) (env : Env) (ds : dbStruct)
    (hdsn : ds.dsn ≠ []) :
    ((Generate u env ds).ds.dsn = ds.dsn ∧
      (Generate u env ds).ds.tables = ds.tables ∧
      (Generate u env ds).ds.tagJson = ds.tagJson ∧
      (Generate u env ds).ds.tagOrm = ds.tagOrm ∧
      (Generate u env ds).ds.fieldNameFmt = ds.fieldNameFmt ∧
      (Generate u env ds).ds.structNameFmt = ds.structNameFmt ∧
      (Generate u env ds).ds.fileNameFmt = ds.fileNameFmt ∧
      (Generate u env ds).ds.genTableName = ds.genTableName ∧
      (Generate u env ds).ds.genTableNameFunc = ds.genTableNameFunc ∧
      (Generate u env ds).ds.singleFile = ds.singleFile ∧
      (Generate u env ds).ds.packageName = ds.packageName) ∧
    ((connectDB env ds).err = none → (Generate u env ds).ds.tags = ds.tags ++ flagTags ds) ∧
    ((connectDB env ds).err ≠ none → (Generate u env ds).ds.tags = ds.tags) ∧
    (ds.modelPath ≠ [] → (Generate u env ds).ds.modelPath = ds.modelPath) ∧
    ((connectDB env ds).err = none →
      (Generate u env (Generate u env ds).ds).ds.tags
        = ds.tags ++ flagTags ds ++ flagTags ds) := by
  obtain ⟨p, hds, hp⟩ := Generate_ds u env ds hdsn
  refine ⟨by rw [hds]; simp, ?_, ?_, ?_, ?_⟩
  · intro he; rw [hds]; simp [he]
  · intro he; rw [hds]; simp [he]
  · intro hne; rw [hds]; exact hp hne
  · intro he
    have hopen := connectDB_open env ds he
    have hdsn2 : (Generate u env ds).ds.dsn ≠ [] := by rw [hds]; exact hdsn
    have hconn : connectDB env (Generate u env ds).ds = (Generate u env ds).ds :=
      connectDB_of_open env _ (by rw [hds]; exact hopen)
    obtain ⟨p2, hds2, _⟩ := Generate_ds u env (Generate u env ds).ds hdsn2
    rw [hds2, hconn]
    have herr : (Generate u env ds).ds.err = none := by rw [hds]; exact he
    have htags : (Generate u env ds).ds.tags = ds.tags ++ flagTags ds := by
      rw [hds]; simp [he]
    have hflags : flagTags (Generate u env ds).ds = flagTags ds := by
      simp only [flagTags, hds]
    simp only [herr, if_true, htags, hflags]

set_option maxRecDepth 100000 in
/-- C19 fails when a convenience flag is set or the output path is empty: for the
scenario with the json flag, no tag of its own and no output path, `Generate` returns
nil and leaves a tag list with one json tag and the output path `/w/model`; a second
run on the configuration so left has two json tags and writes other files than the
first run. -/
theorem Generate_configuration_changed :
    flagDs.dsn ≠ [] ∧ flagDs.tags = [] ∧ flagDs.modelPath = [] ∧
    (Generate asciiTables (scenarioEnv scenarioRows) flagDs).exit = Exit.returned none ∧
    (Generate asciiTables (scenarioEnv scenarioRows) flagDs).ds.tags
      = [NewTag (str "json") FmtDefault] ∧
    (Generate asciiTables (scenarioEnv scenarioRows) flagDs).ds.modelPath = str "/w/model" ∧
    (Generate asciiTables (scenarioEnv scenarioRows)
        (Generate asciiTables (scenarioEnv scenarioRows) flagDs).ds).ds.tags
      = [NewTag (str "json") FmtDefault, NewTag (str "json") FmtDefault] ∧
    (Generate asciiTables (scenarioEnv scenarioRows)
        (Generate asciiTables (scenarioEnv scenarioRows) flagDs).ds).written
      ≠ (Generate asciiTables (scenarioEnv scenarioRows) flagDs).written ∧
    genTagString asciiTables (Generate asciiTables (scenarioEnv scenarioRows) flagDs).ds
        ⟨str "id", str "int", str "NO", str "orders", []⟩
      = some (str "`json:\"id\"`") ∧
    genTagString asciiTables
        (Generate asciiTables (scenarioEnv scenarioRows)
          (Generate asciiTables (scenarioEnv scenarioRows) flagDs).ds).ds
        ⟨str "id", str "int", str "NO", str "orders", []⟩
      = some (str "`json:\"id\" json:\"id\"`") := by
  decide

set_option maxRecDepth 100000 in
/-- C19, on the scenario with the json flag. -/
theorem Generate_configuration_witness :
    flagDs.dsn ≠ [] ∧ (connectDB (scenarioEnv scenarioRows) flagDs).err = none ∧
    (Generate asciiTables (scenarioEnv scenarioRows) flagDs).ds.tags
      = flagDs.tags ++ flagTags flagDs ∧
    (Generate asciiTables (scenarioEnv scenarioRows) flagDs).ds.packageName
      = flagDs.packageName ∧
    (Generate asciiTables (scenarioEnv scenarioRows)
        (Generate asciiTables (scenarioEnv scenarioRows) flagDs).ds).ds.tags
      = flagDs.tags ++ flagTags flagDs ++ flagTags flagDs :=
  ⟨by decide, by decide,
    (Generate_configuration asciiTables (scenarioEnv scenarioRows) flagDs (by decide)).2.1
      (by decide),
    (Generate_configuration asciiTables (scenarioEnv scenarioRows) flagDs (by decide)).1.2.2.2.2.2.2.2.2.2.2,
    (Generate_configuration asciiTables (scenarioEnv scenarioRows) flagDs (by decide)).2.2.2.2
      (by decide)⟩

/-! ## Schema reading: the grouping of the rows -/

theorem mapGet_mapSet {V : Type} (m : List (GoString × V)) (k : GoString) (v : V)
    (k2 : GoString) :
    mapGet (mapSet m k v) k2 = if k = k2 then some v else mapGet m k2 := by
  induction m with
  | nil => simp [mapSet, mapGet]
  | cons p rest ih =>
    obtain ⟨k1, v1⟩ := p
    unfold mapSet
    by_cases h1 : k1 = k
    · rw [if_pos h1]
      subst h1
      by_cases h2 : k1 = k2 <;> simp [mapGet, h2]
    · rw [if_neg h1]
      simp only [mapGet, ih]
      by_cases h2 : k1 = k2
      · have h3 : ¬ k = k2 := fun e => h1 (h2.trans e.symm)
        simp [h2, h3]
      · simp [h2]

theorem mapGet_mem {V : Type} (m : List (GoString × V)) (k : GoString) (v : V)
    (h : mapGet m k = some v) : (k, v) ∈ m := by
  induction m with
  | nil => simp [mapGet] at h
  | cons p rest ih =>
    obtain ⟨k1, v1⟩ := p
    simp only [mapGet] at h
    split at h
    · next e =>
      cases h
      rw [e]
      exact List.mem_cons_self _ _
    · exact List.mem_cons_of_mem _ (ih h)

theorem groupRows_step (tables : List (GoString × List column)) (c : column) (t : GoString) :
    mapGet
        (mapSet
          (match mapGet tables c.Table with
            | none => mapSet tables c.Table []
            | some _ => tables)
          c.Table
          ((mapGet
              (match mapGet tables c.Table with
                | none => mapSet tables c.Table []
                | some _ => tables)
              c.Table).getD [] ++ [c]))
        t
      = if c.Table = t then some ((mapGet tables c.Table).getD [] ++ [c]) else mapGet tables t := by
  rw [mapGet_mapSet]
  cases h : mapGet tables c.Table with
  | none =>
    simp only [mapGet_mapSet, if_true, Option.getD_some, Option.getD_none]
    by_cases e : c.Table = t <;> simp [e]
  | some cs => simp only [h]

theorem groupRows_get (rows : List column) :
    ∀ acc, ∃ res, groupRows acc (rows.map Except.ok) = Except.ok res ∧
      ∀ t, mapGet res t =
        if (mapGet acc t).isSome = true ∨ t ∈ rows.map (fun c => c.Table) then
          some ((mapGet acc t).getD [] ++ rows.filter fun c => decide (c.Table = t))
        else none := by
  induction rows with
  | nil =>
    intro acc
    refine ⟨acc, rfl, fun t => ?_⟩
    cases h : mapGet acc t <;> simp
  | cons c rest ih =>
    intro acc
    obtain ⟨res, hres, hget⟩ := ih
      (mapSet
        (match mapGet acc c.Table with
          | none => mapSet acc c.Table []
          | some _ => acc)
        c.Table
        ((mapGet
            (match mapGet acc c.Table with
              | none => mapSet acc c.Table []
              | some _ => acc)
            c.Table).getD [] ++ [c]))
    refine ⟨res, ?_, fun t => ?_⟩
    · simp only [List.map_cons, groupRows]
      exact hres
    · rw [hget t, groupRows_step]
      by_cases e : c.Table = t
      · subst e
        simp [List.filter_cons]
      · have e2 : ¬ t = c.Table := fun x => e x.symm
        simp [e, e2, List.filter_cons]

/-- C18: for every sequence of rows that scan, the grouping loop of `getTables`
returns a map whose keys are distinct and are exactly the table names that occur in
the rows, and whose value for a table is the subsequence of the rows of that table,
in the order of the rows; so every row stands once, under its own table.  That map is
what `getTables` returns when the query answers with these rows. -/
theorem groupRows_grouping (rows : List column) :
    ∃ tables,
      groupRows [] (rows.map Except.ok) = Except.ok tables ∧
      (tables.map Prod.fst).Nodup ∧
      (∀ t, t ∈ tables.map Prod.fst ↔ t ∈ rows.map fun c => c.Table) ∧
      (∀ t cols, (t, cols) ∈ tables ↔
        (t ∈ rows.map fun c => c.Table) ∧ cols = rows.filter fun c => decide (c.Table = t)) ∧
      (∀ (env : Env) (ds : dbStruct),
        env.query (sqlString ds) = Except.ok (rows.map Except.ok) → env.rowsClose = none →
        getTables env ds = some (Except.ok tables)) := by
  obtain ⟨tables, hres, hget⟩ := groupRows_get rows []
  have hnodup : (tables.map Prod.fst).Nodup := groupRows_keys_nodup _ [] tables (by simp) hres
  have hget2 : ∀ t, mapGet tables t =
      if t ∈ rows.map (fun c => c.Table) then
        some (rows.filter fun c => decide (c.Table = t)) else none := by
    intro t
    rw [hget t]
    simp [mapGet]
  have hpair : ∀ t cols, (t, cols) ∈ tables ↔
      (t ∈ rows.map fun c => c.Table) ∧ cols = rows.filter fun c => decide (c.Table = t) := by
    intro t cols
    constructor
    · intro hm
      have h1 := mapGet_of_mem tables hnodup t cols hm
      rw [hget2 t] at h1
      by_cases ht : t ∈ rows.map fun c => c.Table
      · rw [if_pos ht] at h1
        exact ⟨ht, (Option.some.inj h1).symm⟩
      · rw [if_neg ht] at h1
        cases h1
    · rintro ⟨ht, hc⟩
      apply mapGet_mem
      rw [hget2 t, if_pos ht, hc]
  refine ⟨tables, hres, hnodup, ?_, hpair, ?_⟩
  · intro t
    constructor
    · intro hm
      obtain ⟨p, hp, hpe⟩ := List.mem_map.1 hm
      have : (t, p.2) ∈ tables := by rw [← hpe]; exact hp
      exact ((hpair t p.2).1 this).1
    · intro ht
      exact List.mem_map.2 ⟨(t, rows.filter fun c => decide (c.Table = t)),
        (hpair t _).2 ⟨ht, rfl⟩, rfl⟩
  · intro env ds hq hc
    simp only [getTables, hq, hc, hres]

/-- C18, on the rows of the scenario: the tables `user_group` and `orders` with their
rows in order. -/
theorem groupRows_grouping_witness :
    groupRows [] (scenarioRows.map Except.ok) = Except.ok scenarioTables ∧
    (scenarioEnv scenarioRows).query (sqlString scenarioDs)
      = Except.ok (scenarioRows.map Except.ok) ∧
    (scenarioEnv scenarioRows).rowsClose = none ∧
    ∃ tables,
      groupRows [] (scenarioRows.map Except.ok) = Except.ok tables ∧
      getTables (scenarioEnv scenarioRows) scenarioDs = some (Except.ok tables) ∧
      ((str "orders", scenarioRows.filter fun c => decide (c.Table = str "orders")) ∈ tables) :=
  match groupRows_grouping scenarioRows with
  | ⟨tables, h1, _, _, h4, h5⟩ =>
    ⟨rfl, rfl, rfl, tables, h1, h5 (scenarioEnv scenarioRows) scenarioDs rfl rfl,
      (h4 (str "orders") _).2 ⟨by decide, rfl⟩⟩

/-! ## Name formatting: camel case and back -/

theorem stringsSplit_append_of_not_mem (seg : GoString) (h : 95 ∉ seg) (rest : GoString) :
    stringsSplit 95 (seg ++ 95 :: rest) = seg :: stringsSplit 95 rest := by
  induction seg with
  | nil => simp [stringsSplit]
  | cons b t ih =>
    simp only [List.mem_cons, not_or] at h
    have hb : ¬ b = 95 := fun e => h.1 e.symm
    rw [List.cons_append, stringsSplit, if_neg hb, ih h.2]

theorem stringsSplit_of_not_mem (seg : GoString) (h : 95 ∉ seg) :
    stringsSplit 95 seg = [seg] := by
  induction seg with
  | nil => rfl
  | cons b t ih =>
    simp only [List.mem_cons, not_or] at h
    have hb : ¬ b = 95 := fun e => h.1 e.symm
    rw [stringsSplit, if_neg hb, ih h.2]

theorem stringsSplit_intercalate_segs (segs : List GoString) (hne : segs ≠ [])
    (h : ∀ seg ∈ segs, 95 ∉ seg) :
    stringsSplit 95 (List.intercalate [95] segs) = segs := by
  induction segs with
  | nil => exact absurd rfl hne
  | cons seg rest ih =>
    cases rest with
    | nil =>
      simpa [List.intercalate] using stringsSplit_of_not_mem seg (h seg (List.mem_cons_self _ _))
    | cons seg2 rest2 =>
      rw [intercalate_cons_cons, List.append_assoc]
      show stringsSplit 95 (seg ++ 95 :: List.intercalate [95] (seg2 :: rest2)) = _
      rw [stringsSplit_append_of_not_mem seg (h seg (List.mem_cons_self _ _)),
        ih (by simp) (fun s hs => h s (List.mem_cons_of_mem _ hs))]

theorem intercalate_eq_flatten (seg : GoString) (rest : List GoString) :
    List.intercalate [95] (seg :: rest) = seg ++ (rest.map fun s => 95 :: s).flatten := by
  induction rest generalizing seg with
  | nil => simp [List.intercalate]
  | cons seg2 rest2 ih =>
    rw [intercalate_cons_cons, ih seg2]
    simp [List.append_assoc]

theorem encodeRunes_ascii (l : List Nat) (h : ∀ b ∈ l, b < 0x80) : encodeRunes l = l := by
  induction l with
  | nil => rfl
  | cons b t ih =>
    have hb : b < 0x80 := h b (List.mem_cons_self _ _)
    rw [encodeRunes_cons, ih (fun x hx => h x (List.mem_cons_of_mem _ hx))]
    simp [encodeRune, hb]

theorem runes_ascii (l : List Nat) (h : ∀ b ∈ l, b < 0x80) : runes l = l := by
  have hv : ∀ c ∈ l, validRune c := fun c hc => Or.inl (Nat.lt_trans (h c hc) (by decide))
  have := runes_encodeRunes l hv
  rwa [encodeRunes_ascii l h] at this

theorem snakeFrom_lower (u : UnicodeTables) (t : List Nat) (h : ∀ b ∈ t, isLowerLetter b) :
    ∀ pos rest, snakeFrom u pos (t ++ rest) = t ++ snakeFrom u (pos + t.length) rest := by
  induction t with
  | nil => intro pos rest; simp
  | cons b t ih =>
    intro pos rest
    have hb : isLowerLetter b := h b (List.mem_cons_self _ _)
    unfold isLowerLetter at hb
    have h1 : b < 0x80 := by omega
    have h2 : ¬ (65 ≤ b ∧ b ≤ 90) := by omega
    rw [List.cons_append, snakeFrom, ih (fun x hx => h x (List.mem_cons_of_mem _ hx))]
    simp only [snakeChar, unicodeIsUpper, h1, if_true, h2, decide_False, Bool.false_eq_true,
      if_false, List.cons_append, List.nil_append, List.length_cons]
    congr 3
    omega

theorem snakeFrom_upperFirst (u : UnicodeTables) (seg : GoString) (hne : seg ≠ [])
    (h : ∀ b ∈ seg, isLowerLetter b) (pos : Nat) (rest : List Nat) :
    snakeFrom u pos (upperFirst seg ++ rest)
      = (if pos = 0 then seg else 95 :: seg) ++ snakeFrom u (pos + seg.length) rest := by
  cases seg with
  | nil => exact absurd rfl hne
  | cons b t =>
    have hb : isLowerLetter b := h b (List.mem_cons_self _ _)
    unfold isLowerLetter at hb
    have h1 : b - 32 < 0x80 := by omega
    have h2 : 65 ≤ b - 32 ∧ b - 32 ≤ 90 := by omega
    have h3 : b - 32 + 32 = b := by omega
    have h4 : 97 ≤ b ∧ b ≤ 122 := hb
    rw [upperFirst, List.cons_append, snakeFrom,
      snakeFrom_lower u t (fun x hx => h x (List.mem_cons_of_mem _ hx))]
    simp only [upperASCII, h4, and_self, if_true, snakeChar, unicodeIsUpper, h1, h2,
      decide_True, unicodeToLower, lowerASCII, h3, List.length_cons]
    by_cases hp : pos = 0
    · simp only [hp, if_true, List.cons_append, List.nil_append]
      congr 3
      omega
    · simp only [hp, if_false, List.cons_append, List.nil_append]
      congr 4
      omega

theorem snakeFrom_upperCamel (u : UnicodeTables) (segs : List GoString)
    (h : ∀ seg ∈ segs, seg ≠ [] ∧ ∀ b ∈ seg, isLowerLetter b) :
    ∀ pos, pos ≠ 0 →
      snakeFrom u pos (upperCamel segs) = (segs.map fun s => 95 :: s).flatten := by
  induction segs with
  | nil => intro pos _; simp [upperCamel, snakeFrom]
  | cons seg rest ih =>
    intro pos hpos
    have hs := h seg (List.mem_cons_self _ _)
    have hrest := ih (fun s hs => h s (List.mem_cons_of_mem _ hs))
    have e : upperCamel (seg :: rest) = upperFirst seg ++ upperCamel rest := by
      simp [upperCamel]
    rw [e, snakeFrom_upperFirst u seg hs.1 hs.2, if_neg hpos, hrest _ (by omega)]
    simp

theorem lowerFirst_lower (seg : GoString) (h : ∀ b ∈ seg, isLowerLetter b) :
    lowerFirst seg = seg := by
  cases seg with
  | nil => rfl
  | cons b t =>
    have hb : isLowerLetter b := h b (List.mem_cons_self _ _)
    unfold isLowerLetter at hb
    have h2 : ¬ (65 ≤ b ∧ b ≤ 90) := by omega
    simp [lowerFirst, lowerASCII, h2]

theorem upperCamel_ascii (segs : List GoString)
    (h : ∀ seg ∈ segs, seg ≠ [] ∧ ∀ b ∈ seg, isLowerLetter b) :
    ∀ b ∈ upperCamel segs, b < 0x80 := by
  intro b hb
  simp only [upperCamel, List.mem_flatten, List.mem_map] at hb
  obtain ⟨l, ⟨seg, hseg, hl⟩, hbl⟩ := hb
  have hs := (h seg hseg).2
  cases seg with
  | nil => rw [← hl] at hbl; cases hbl
  | cons c t =>
    rw [← hl, upperFirst] at hbl
    rcases List.mem_cons.1 hbl with e | e
    · have hc : isLowerLetter c := hs c (List.mem_cons_self _ _)
      unfold isLowerLetter at hc
      rw [e]
      unfold upperASCII
      split <;> omega
    · have hc : isLowerLetter b := hs b (List.mem_cons_of_mem _ e)
      unfold isLowerLetter at hc
      omega

theorem intercalate_ascii (segs : List GoString)
    (h : ∀ seg ∈ segs, seg ≠ [] ∧ ∀ b ∈ seg, isLowerLetter b) (hne : segs ≠ []) :
    ∀ b ∈ List.intercalate [95] segs, b < 0x80 := by
  cases segs with
  | nil => exact absurd rfl hne
  | cons seg rest =>
    intro b hb
    rw [intercalate_eq_flatten] at hb
    rcases List.mem_append.1 hb with e | e
    · have hc : isLowerLetter b := (h seg (List.mem_cons_self _ _)).2 b e
      unfold isLowerLetter at hc
      omega
    · simp only [List.mem_flatten, List.mem_map] at e
      obtain ⟨l, ⟨s, hs, hl⟩, hbl⟩ := e
      rw [← hl] at hbl
      rcases List.mem_cons.1 hbl with e2 | e2
      · omega
      · have hc : isLowerLetter b := (h s (List.mem_cons_of_mem _ hs)).2 b e2
        unfold isLowerLetter at hc
        omega

theorem getFormatName_underline_ascii (u : UnicodeTables) (s : GoString)
    (h : ∀ b ∈ s, b < 0x80) :
    getFormatName u s FmtUnderline = some (encodeRunes (camelToSnake u s)) := by
  have : getFormatName u s FmtUnderline = some (underlineLoop u [] (rangeString s)) := by
    simp [getFormatName]
  rw [this, underlineLoop_rangeString, runes_ascii s h]

/-- C20: for an identifier made of one or more non-empty pieces of ASCII lower-case
letters joined by single underscores, `getFormatName` with `FmtUnderlineToStartUpHump`
followed by `getFormatName` with `FmtUnderline` gives the identifier back, and so does
`FmtUnderlineToStartLowHump` followed by `FmtUnderline`. -/
theorem getFormatName_roundTrip (u : UnicodeTables) (segs : List GoString) (hne : segs ≠ [])
    (hseg : ∀ seg ∈ segs, seg ≠ [] ∧ ∀ b ∈ seg, isLowerLetter b) :
    (getFormatName u (List.intercalate [95] segs) FmtUnderlineToStartUpHump).bind
        (fun t => getFormatName u t FmtUnderline)
      = some (List.intercalate [95] segs) ∧
    (getFormatName u (List.intercalate [95] segs) FmtUnderlineToStartLowHump).bind
        (fun t => getFormatName u t FmtUnderline)
      = some (List.intercalate [95] segs) := by
  have hnosep : ∀ seg ∈ segs, 95 ∉ seg := by
    intro seg hs hm
    have hc : isLowerLetter 95 := (hseg seg hs).2 95 hm
    unfold isLowerLetter at hc
    omega
  have hled : ∀ seg ∈ stringsSplit 95 (List.intercalate [95] segs), asciiLed seg := by
    rw [stringsSplit_intercalate_segs segs hne hnosep]
    intro seg hs
    obtain ⟨hn, hl⟩ := hseg seg hs
    cases seg with
    | nil => exact absurd rfl hn
    | cons b t =>
      have hc : isLowerLetter b := hl b (List.mem_cons_self _ _)
      unfold isLowerLetter at hc
      exact ⟨b, t, rfl, by omega⟩
  have hup : getFormatName u (List.intercalate [95] segs) FmtUnderlineToStartUpHump
      = some (upperCamel segs) := by
    have : getFormatName u (List.intercalate [95] segs) FmtUnderlineToStartUpHump
        = upHumpLoop [] (stringsSplit 95 (List.intercalate [95] segs)) := by
      simp [getFormatName]
    rw [this, upHumpLoop_asciiLed _ _ hled, stringsSplit_intercalate_segs segs hne hnosep]
    simp
  have hlow : getFormatName u (List.intercalate [95] segs) FmtUnderlineToStartLowHump
      = some (lowerCamel segs) := by
    have : getFormatName u (List.intercalate [95] segs) FmtUnderlineToStartLowHump
        = lowHumpLoop 0 [] (stringsSplit 95 (List.intercalate [95] segs)) := by
      simp [getFormatName]
    rw [this, lowHumpLoop_zero_asciiLed _ hled, stringsSplit_intercalate_segs segs hne hnosep]
  have hback := encodeRunes_ascii _ (intercalate_ascii segs hseg hne)
  cases segs with
  | nil => exact absurd rfl hne
  | cons seg rest =>
    have hs := hseg seg (List.mem_cons_self _ _)
    have hrest : ∀ s ∈ rest, s ≠ [] ∧ ∀ b ∈ s, isLowerLetter b :=
      fun s hm => hseg s (List.mem_cons_of_mem _ hm)
    have hlen : seg.length ≠ 0 := by
      intro e
      exact hs.1 (List.length_eq_zero.1 e)
    constructor
    · rw [hup, Option.some_bind,
        getFormatName_underline_ascii u _ (upperCamel_ascii _ hseg)]
      have e : upperCamel (seg :: rest) = upperFirst seg ++ upperCamel rest := by
        simp [upperCamel]
      rw [camelToSnake, e, snakeFrom_upperFirst u seg hs.1 hs.2, if_pos rfl,
        snakeFrom_upperCamel u rest hrest _ (by omega), ← intercalate_eq_flatten, hback]
    · have hl : ∀ b ∈ lowerCamel (seg :: rest), b < 0x80 := by
        intro b hb
        rw [lowerCamel, lowerFirst_lower seg hs.2] at hb
        rcases List.mem_append.1 hb with e | e
        · have hc : isLowerLetter b := hs.2 b e
          unfold isLowerLetter at hc
          omega
        · exact upperCamel_ascii rest hrest b e
      rw [hlow, Option.some_bind, getFormatName_underline_ascii u _ hl]
      rw [camelToSnake, lowerCamel, lowerFirst_lower seg hs.2, snakeFrom_lower u seg hs.2]
      have e : (rest.map upperFirst).flatten = upperCamel rest := rfl
      rw [e, snakeFrom_upperCamel u rest hrest _ (by omega), ← intercalate_eq_flatten, hback]

/-- C20, on the identifier "user_all_name". -/
theorem getFormatName_roundTrip_witness :
    [str "user", str "all", str "name"] ≠ [] ∧
    (∀ seg ∈ [str "user", str "all", str "name"], seg ≠ [] ∧ ∀ b ∈ seg, isLowerLetter b) ∧
    List.intercalate [95] [str "user", str "all", str "name"] = str "user_all_name" ∧
    getFormatName asciiTables (str "user_all_name") FmtUnderlineToStartUpHump
      = some (str "UserAllName") ∧
    getFormatName asciiTables (str "user_all_name") FmtUnderlineToStartLowHump
      = some (str "userAllName") ∧
    ((getFormatName asciiTables (List.intercalate [95] [str "user", str "all", str "name"])
          FmtUnderlineToStartUpHump).bind
        (fun t => getFormatName asciiTables t FmtUnderline)
      = some (List.intercalate [95] [str "user", str "all", str "name"]) ∧
    (getFormatName asciiTables (List.intercalate [95] [str "user", str "all", str "name"])
          FmtUnderlineToStartLowHump).bind
        (fun t => getFormatName asciiTables t FmtUnderline)
      = some (List.intercalate [95] [str "user", str "all", str "name"])) :=
  ⟨by decide, by decide, by decide, by decide, by decide,
    getFormatName_roundTrip asciiTables [str "user", str "all", str "name"] (by decide)
      (by decide)⟩

/-! ## Rendering: where the accessor method and the comment line are lost -/

set_option maxRecDepth 100000 in
/-- C12: with the accessor toggle on and the method name `TableName`, `genStruct` does
not always append the accessor method of the claim.  For the table `user__group` it
panics in `getFormatName` and appends nothing.  In single-file mode, for a table whose
name is the text of the import placeholder and struct-name mode `FmtUnderline`, the
final `strings.Replace` removes the table name from the method, which returns "".
For a struct-name mode outside the four constants the struct name is empty and the
slice `structName[0:1]` of the accessor code panics, while the same table renders
when the toggle is off. -/
theorem genStruct_accessorMethod_defects :
    (scenarioDs.genTableNameFunc = true ∧ scenarioDs.genTableName = str "TableName") ∧
    genStruct asciiTables scenarioDs (str "user__group") userGroupColumns = none ∧
    (snakeStructDs.singleFile = true ∧ snakeStructDs.genTableNameFunc = true ∧
      snakeStructDs.genTableName = str "TableName") ∧
    genStruct asciiTables snakeStructDs (str "\x7b@importTimePkg@\x7d") ordersRows
      = some
        { structName := str "\x7b@import_time_pkg@\x7d",
          content := str ("type \x7b@import_time_pkg@\x7d struct \x7b\n" ++
            "\tId int `json:\"id\"`\n" ++
            "\x7d\n\n" ++
            "func (\x7b *\x7b@import_time_pkg@\x7d) TableName() string \x7b\n" ++
            "\treturn \"\"\n\x7d"),
          err := none,
          needImportTimePkg := false } ∧
    genStruct asciiTables { scenarioDs with structNameFmt := 7 } (str "user_group")
      userGroupColumns = none ∧
    (genStruct asciiTables { scenarioDs with structNameFmt := 7, genTableNameFunc := false }
      (str "user_group") userGroupColumns).map (fun res => res.structName) = some [] := by
  decide

set_option maxRecDepth 100000 in
/-- C16: `genStruct` does not always emit the comment line of the claim.  In
single-file mode, for a column whose comment is `x{@importTimePkg@}y`, the final
`strings.Replace` removes the placeholder text from the comment, so that the comment
line holds `xy`; in multi-file mode the same column keeps its comment.  For a column
`_id` with the comment `key` under field-name mode `FmtUnderlineToStartUpHump`,
`getFormatName` panics and no line is emitted at all. -/
theorem genStruct_commentLine_defects :
    singleFileDs.singleFile = true ∧
    markedColumn.Comment = str "x\x7b@importTimePkg@\x7dy" ∧
    genStruct asciiTables singleFileDs (str "user_group") [markedColumn]
      = some
        { structName := str "UserGroup",
          content := str ("type UserGroup struct \x7b\n" ++
            "\t// xy\n" ++
            "\tUserName string `json:\"userName\"`\n" ++
            "\x7d\n\n" ++
            "func (u *UserGroup) TableName() string \x7b\n\treturn \"user_group\"\n\x7d"),
          err := none,
          needImportTimePkg := false } ∧
    scenarioDs.singleFile = false ∧
    genStruct asciiTables scenarioDs (str "user_group") [markedColumn]
      = some
        { structName := str "UserGroup",
          content := str ("package model\n\n \n\n " ++
            "type UserGroup struct \x7b\n" ++
            "\t// x\x7b@importTimePkg@\x7dy\n" ++
            "\tUserName string `json:\"userName\"`\n" ++
            "\x7d\n\n" ++
            "func (u *UserGroup) TableName() string \x7b\n\treturn \"user_group\"\n\x7d"),
          err := none,
          needImportTimePkg := false } ∧
    genStruct asciiTables scenarioDs (str "user_group")
      [⟨str "_id", str "int", str "NO", str "user_group", str "key"⟩] = none := by
  decide

/-! ## Generation: the tag list of a run -/

/-- C15, as the code has it: the tag list that `Generate` renders with is the tag list
that the configuration holds when `Generate` is called, followed by a json tag when
the flag `tagJson` is set and then by an orm tag when the flag `tagOrm` is set; the
results that `Generate` collects and writes are rendered with that list.  `AppendTag`
fills the list of the configuration in the order of its calls, and a run that opens
the connection leaves its flag tags in it, so that a second run on the same
configuration renders with the list of the first run followed once more by the flag
tags.  With no tag in the configuration and both flags off the list is empty, every
tag clause is empty and a field line consists of the name and the type alone. -/
theorem Generate_tagList (u : UnicodeTables) (env : Env) (ds : dbStruct) :
    (addFlagTags (connectDB env ds)).tags
      = ds.tags ++
        ((if ds.tagJson = true then [NewTag (str "json") FmtDefault] else []) ++
          (if ds.tagOrm = true then [NewTag (str "orm") FmtDefault] else [])) ∧
    (∀ vs : List Tag, (vs.foldl AppendTag ds).tags = ds.tags ++ vs) ∧
    (∀ tables, (Generate u env ds).exit = Exit.returned none →
      getTables env ds = some (Except.ok tables) →
      ∃ results ds3,
        genAll u (addFlagTags (connectDB env ds)) tables = some results ∧
        Generate u env ds
          = output u env ds3 (collectLoop [] false results).1 (collectLoop [] false results).2) ∧
    (ds.dsn ≠ [] → (connectDB env ds).err = none →
      (Generate u env ds).ds.tags
        = ds.tags ++
          ((if ds.tagJson = true then [NewTag (str "json") FmtDefault] else []) ++
            (if ds.tagOrm = true then [NewTag (str "orm") FmtDefault] else [])) ∧
      (addFlagTags (connectDB env (Generate u env ds).ds)).tags
        = ds.tags ++
          ((if ds.tagJson = true then [NewTag (str "json") FmtDefault] else []) ++
            (if ds.tagOrm = true then [NewTag (str "orm") FmtDefault] else [])) ++
          ((if ds.tagJson = true then [NewTag (str "json") FmtDefault] else []) ++
            (if ds.tagOrm = true then [NewTag (str "orm") FmtDefault] else []))) ∧
    (ds.tags = [] → ds.tagJson = false → ds.tagOrm = false →
      (addFlagTags (connectDB env ds)).tags = [] ∧
      (∀ c, genTagString u (addFlagTags (connectDB env ds)) c = some []) ∧
      (∀ st c st1, genColumn u (addFlagTags (connectDB env ds)) st c = some st1 →
        ∃ fieldName,
          getFormatName u c.Name ds.fieldNameFmt = some fieldName ∧
          st1.buffer = st.buffer ++ (commentLine c.Comment ++
            (str "\t" ++ fieldName ++ str " " ++ getColumnGoType c.Typ ++ str " " ++ str "\n")))) := by
  obtain ⟨o, e, hce⟩ := connectDB_eq env ds
  have hD : addFlagTags (connectDB env ds)
      = { ds with dbOpen := o, err := e, tags := ds.tags ++ flagTags ds } := by
    rw [addFlagTags_eq, hce]
    simp [flagTags]
  have hflag : (if ds.tagJson = true then [NewTag (str "json") FmtDefault] else []) ++
      (if ds.tagOrm = true then [NewTag (str "orm") FmtDefault] else []) = flagTags ds := rfl
  refine ⟨by rw [hD]; rfl, ?_, ?_, ?_, ?_⟩
  · exact fun vs => foldl_AppendTag_tags vs ds
  · intro tables hok ht
    obtain ⟨results, ds3, _, _, hg, _, hgen⟩ := Generate_run u env ds tables hok ht
    exact ⟨results, ds3, hg, hgen⟩
  · intro hdsn he
    obtain ⟨p, hds, _⟩ := Generate_ds u env ds hdsn
    have htags : (Generate u env ds).ds.tags = ds.tags ++ flagTags ds := by
      rw [hds]; simp [he]
    have hopen := connectDB_open env ds he
    have hconn : connectDB env (Generate u env ds).ds = (Generate u env ds).ds :=
      connectDB_of_open env _ (by rw [hds]; exact hopen)
    have hflags : flagTags (Generate u env ds).ds = flagTags ds := by
      simp only [flagTags, hds]
    rw [hflag]
    refine ⟨htags, ?_⟩
    rw [hconn, addFlagTags_eq]
    simp only [htags, hflags]
  · intro h1 h2 h3
    have htags : (addFlagTags (connectDB env ds)).tags = [] := by
      rw [hD]
      simp [flagTags, h1, h2, h3]
    have hfmt : (addFlagTags (connectDB env ds)).fieldNameFmt = ds.fieldNameFmt := by rw [hD]
    refine ⟨htags, ?_, ?_⟩
    · intro c
      simp [genTagString, htags]
    · intro st c st1 hgc
      obtain ⟨line, hl, hb, _⟩ := genColumn_render u _ st st1 c hgc
      unfold fieldLine at hl
      rw [htags, hfmt] at hl
      cases hn : getFormatName u c.Name ds.fieldNameFmt with
      | none => rw [hn] at hl; cases hl
      | some fieldName =>
        rw [hn] at hl
        simp only [tagPairs, Option.some.injEq] at hl
        refine ⟨fieldName, rfl, ?_⟩
        rw [hb, ← hl]
        simp [tagClause]

set_option maxRecDepth 100000 in
/-- C15 fails on a configuration that `Generate` has run on before: for the scenario
with the json flag and no tag of its own, the first run renders with one json tag and
returns nil; the second run on the same configuration renders with two json tags,
and the file it writes for the table `orders` carries the pair json twice. -/
theorem Generate_tagList_second_run :
    flagDs.tags = [] ∧ flagDs.tagJson = true ∧ flagDs.tagOrm = false ∧
    (addFlagTags (connectDB (scenarioEnv ordersRows) flagDs)).tags
      = [NewTag (str "json") FmtDefault] ∧
    (Generate asciiTables (scenarioEnv ordersRows) flagDs).exit = Exit.returned none ∧
    (addFlagTags (connectDB (scenarioEnv ordersRows)
        (Generate asciiTables (scenarioEnv ordersRows) flagDs).ds)).tags
      = [NewTag (str "json") FmtDefault, NewTag (str "json") FmtDefault] ∧
    (Generate asciiTables (scenarioEnv ordersRows)
        (Generate asciiTables (scenarioEnv ordersRows) flagDs).ds).exit = Exit.returned none ∧
    (Generate asciiTables (scenarioEnv ordersRows)
        (Generate asciiTables (scenarioEnv ordersRows) flagDs).ds).written
      = [ (str "/w/model/Orders.go",
            str ("package model\n\n \n\n type Orders struct \x7b\n" ++
              "\tId int `json:\"id\" json:\"id\"`\n" ++
              "\x7d\n\n" ++
              "func (o *Orders) TableName() string \x7b\n\treturn \"orders\"\n\x7d")) ] := by
  decide

set_option maxRecDepth 100000 in
/-- C15, on runs that render: the scenario with both flags set, where `Generate`
returns nil and renders the tables `user_group` and `orders` with the tag of the
configuration followed by json and orm, and a second run with the flag tags twice; and
the scenario without tag and flag, where the written files carry no tag clause. -/
theorem Generate_tagList_witness :
    (Generate asciiTables (scenarioEnv scenarioRows) bothFlagsDs).exit = Exit.returned none ∧
    getTables (scenarioEnv scenarioRows) bothFlagsDs = some (Except.ok scenarioTables) ∧
    (addFlagTags (connectDB (scenarioEnv scenarioRows) bothFlagsDs)).tags
      = [NewTag (str "json") FmtUnderlineToStartLowHump, NewTag (str "json") FmtDefault,
          NewTag (str "orm") FmtDefault] ∧
    (∃ results ds3,
      genAll asciiTables (addFlagTags (connectDB (scenarioEnv scenarioRows) bothFlagsDs))
        scenarioTables = some results ∧
      Generate asciiTables (scenarioEnv scenarioRows) bothFlagsDs
        = output asciiTables (scenarioEnv scenarioRows) ds3
            (collectLoop [] false results).1 (collectLoop [] false results).2) ∧
    (bothFlagsDs.dsn ≠ [] ∧ (connectDB (scenarioEnv scenarioRows) bothFlagsDs).err = none) ∧
    (addFlagTags (connectDB (scenarioEnv scenarioRows)
        (Generate asciiTables (scenarioEnv scenarioRows) bothFlagsDs).ds)).tags
      = [NewTag (str "json") FmtUnderlineToStartLowHump, NewTag (str "json") FmtDefault,
          NewTag (str "orm") FmtDefault, NewTag (str "json") FmtDefault,
          NewTag (str "orm") FmtDefault] ∧
    (noTagDs.dsn ≠ [] ∧ noTagDs.tags = [] ∧ noTagDs.tagJson = false ∧ noTagDs.tagOrm = false) ∧
    (addFlagTags (connectDB (scenarioEnv ordersRows) noTagDs)).tags = [] ∧
    (∀ c, genTagString asciiTables (addFlagTags (connectDB (scenarioEnv ordersRows) noTagDs)) c
      = some []) ∧
    Generate asciiTables (scenarioEnv ordersRows) noTagDs
      = { ds := { noTagDs with dbOpen := true, modelPath := str "/w/model" },
          exit := Exit.returned none,
          written :=
            [ (str "/w/model/Orders.go",
                str ("package model\n\n \n\n type Orders struct \x7b\n" ++
                  "\tId int \n" ++
                  "\x7d\n\n" ++
                  "func (o *Orders) TableName() string \x7b\n\treturn \"orders\"\n\x7d")) ] } ∧
    ([NewTag (str "xml") FmtDefault, NewTag (str "db") FmtUnderline].foldl AppendTag
        NewDBStruct).tags
      = [NewTag (str "xml") FmtDefault, NewTag (str "db") FmtUnderline] :=
  ⟨by decide, rfl, by decide,
    (Generate_tagList asciiTables (scenarioEnv scenarioRows) bothFlagsDs).2.2.1 scenarioTables
      (by decide) rfl,
    ⟨by decide, by decide⟩,
    ((Generate_tagList asciiTables (scenarioEnv scenarioRows) bothFlagsDs).2.2.2.1
      (by decide) (by decide)).2,
    ⟨by decide, rfl, rfl, rfl⟩,
    ((Generate_tagList asciiTables (scenarioEnv ordersRows) noTagDs).2.2.2.2 rfl rfl rfl).1,
    ((Generate_tagList asciiTables (scenarioEnv ordersRows) noTagDs).2.2.2.2 rfl rfl rfl).2.1,
    by decide, by decide⟩

end DbStruct
